import Mathlib

/-!
Verification development for the freephil configuration-language core
(`src/freephil/common.py`).

The Python source is shallowly embedded: each Lean definition mirrors one
Python function of `common.py`.  Helper modules of the repository that are
not part of the provided sources (`tokenizer.py`, `converters.py`,
`tokens.py`, `parser.py`) are modelled from the specification where needed;
every such definition is marked `Modelled from the spec:` in its doc
comment.

Only the fragment of the data model exercised by the verified properties is
embedded: untyped definitions (Python `.type=None`, i.e. the plain words
converter), scopes, the fetch/merge/diff engine, the extract/format engine
and the variable-substitution engine.  Converter plugins, include
processing, `tmp`-based unused-definition tracking and pretty-printer
attribute output (`attributes_level > 0`) are outside the modelled
fragment; none of the verified properties depend on them.
-/

namespace Freephil

/-- Modelled from the spec: a lexer token ("Token/Word"): raw text plus an
optional quoting style (`none` = unquoted, `'"'` = double-quoted, `'\''` =
single-quoted).  Source-location metadata is dropped (it only feeds
diagnostic strings). -/
structure Word where
  value : String
  quoteToken : Option Char := none
deriving Repr, DecidableEq

/-- The process environment, a read-only map from variable names to values
(`os.environ`). -/
def Env : Type := List (String × String)

/-- `os.environ.get` -/
def Env.get (e : Env) (k : String) : Option String :=
  match e with
  | [] => none
  | (k', v) :: rest => if k' = k then some v else Env.get rest k

/-- The error kinds raised by the embedded operations (Python exceptions). -/
inductive PhilError where
  /-- `RuntimeError('Reserved identifier: "<name>"')` for dunder-style names -/
  | reservedIdentifier (name : String)
  /-- `RuntimeError('Reserved identifier: "include"')` -/
  | reservedInclude (name : String)
  /-- `RuntimeError("Incompatible parameter objects: ...")` -/
  | incompatibleObjects
  /-- `RuntimeError("Undefined variable: $<name>")` -/
  | undefinedVariable (name : String)
  /-- `RuntimeError("Not a definition: $<name>")` -/
  | notADefinition (name : String)
  /-- `word.raise_syntax_error(msg)` -/
  | syntaxError (msg : String)
  /-- `RuntimeError("Duplicate definitions in master (first not marked with .multiple=True): ...")` -/
  | duplicateDefinitions (path : String)
  /-- Python `AssertionError` / `TypeError` on ill-shaped inputs -/
  | assertionFailure
  /-- Python `RecursionError`: the embedding bounds recursion by explicit fuel -/
  | recursionLimit
deriving Repr, DecidableEq

/-- Deprecation is the sole warning-class condition; it is a separate type
from `PhilError`, so it is distinguishable from (and never confused with)
the fatal errors (`warnings.warn(..., PhilDeprecationWarning)`). -/
inductive PhilWarning where
  /-- `"<full path> is deprecated - not recommended for use."` -/
  | deprecation (fullPath : String)
deriving Repr, DecidableEq

instance {e a : Type} [DecidableEq e] [DecidableEq a] : DecidableEq (Except e a)
  | .ok x, .ok y =>
    if h : x = y then .isTrue (by rw [h]) else .isFalse (by simp [h])
  | .ok _, .error _ => .isFalse (by simp)
  | .error _, .ok _ => .isFalse (by simp)
  | .error x, .error y =>
    if h : x = y then .isTrue (by rw [h]) else .isFalse (by simp [h])

/-- Modelled from the spec: Python `str.startswith` (structural, so that
concrete instances evaluate). -/
def strStartsWith (s p : String) : Bool := p.data.isPrefixOf s.data

/-- Modelled from the spec: Python `str.endswith`. -/
def strEndsWith (s p : String) : Bool := p.data.reverse.isPrefixOf s.data.reverse

/-- Python `s[n:]` (character slicing). -/
def strDrop (s : String) (n : Nat) : String := String.mk (s.data.drop n)

/-- Python `"." in name` (single-character membership). -/
def strContainsChar (s : String) (c : Char) : Bool := s.data.contains c

/-- Modelled from the spec: Python `str.lower` restricted to ASCII. -/
def strToLower (s : String) : String :=
  String.mk (s.data.map fun c =>
    if 'A' ≤ c && c ≤ 'Z' then Char.ofNat (c.toNat + 32) else c)

/-- Python `sep.join(parts)`. -/
def strIntercalate (sep : String) : List String → String
  | [] => ""
  | [x] => x
  | x :: rest => x ++ sep ++ strIntercalate sep rest

/-- Python `name.split(".")`: contiguous splitting, preserving empty
components. -/
def splitDot (s : String) : List String :=
  go s.data []
where go : List Char → List Char → List String
  | [], acc => [String.mk acc.reverse]
  | c :: r, acc => if c = '.' then String.mk acc.reverse :: go r [] else go r (c :: acc)

/-- `is_reserved_identifier` (common.py:89-92). -/
def is_reserved_identifier (s : String) : Bool :=
  if s.length < 5 then false
  else strStartsWith s "__" && strEndsWith s "__"

/-- Modelled from the spec: `standard_identifier_start_characters` from the
absent `tokens.py` — ASCII letters and underscore. -/
def standardIdentifierStart (c : Char) : Bool :=
  c = '_' || (('a' ≤ c && c ≤ 'z') || ('A' ≤ c && c ≤ 'Z'))

/-- Modelled from the spec: `standard_identifier_continuation_characters`
from the absent `tokens.py` — start characters, decimal digits, and the dot
(dotted paths such as `a.b` are single identifiers in the phil grammar). -/
def standardIdentifierContinuation (c : Char) : Bool :=
  standardIdentifierStart c || ('0' ≤ c && c ≤ '9') || c = '.'

/-- Modelled from the spec: `is_standard_identifier` from the absent
`converters.py`: nonempty, starts with a start character, continues with
continuation characters. -/
def is_standard_identifier (s : String) : Bool :=
  match s.data with
  | [] => false
  | c :: cs => standardIdentifierStart c && cs.all standardIdentifierContinuation

/-- Name validation performed by `definition.__init__` (common.py:466-469):
dunder-style names are reserved, and `"include"` may not occur as a dotted
component — but a definition named exactly `"include"` is allowed (it is the
include directive itself). -/
def definitionNameCheck (name : String) : Except PhilError Unit :=
  if is_reserved_identifier name then .error (.reservedIdentifier name)
  else if name ≠ "include" && (splitDot name).contains "include" then
    .error (.reservedInclude name)
  else .ok ()

/-- Name validation performed by `scope.__init__` (common.py:1311-1314):
dunder-style names are reserved and no dotted component may be
`"include"` (here the bare name `"include"` is also rejected). -/
def scopeNameCheck (name : String) : Except PhilError Unit :=
  if is_reserved_identifier name then .error (.reservedIdentifier name)
  else if (splitDot name).contains "include" then
    .error (.reservedInclude name)
  else .ok ()

/-- The slots of a `definition` node (common.py:363-489) that participate in
the embedded fragment.  `type` is fixed to `None` (the plain words
converter), and the diagnostic/presentation slots (`where_str`, `help`,
`caption`, `short_caption`, `input_size`, `style`, `expert_level`, `tmp`)
are dropped: none of them affects fetch/extract/format/resolve semantics at
the default serialization settings. -/
structure DefnData where
  name : String
  words : List Word
  primary_id : Option Nat := none
  is_disabled : Bool := false
  is_template : Int := 0
  merge_names : Bool := false
  optional : Option Bool := none
  multiple : Option Bool := none
  deprecated : Option Bool := none
  alias_ : Option String := none
deriving Repr, DecidableEq

/-- The slots of a `scope` node (common.py:1175-1316) in the embedded
fragment (child objects are carried separately in the tree type). -/
structure ScopeData where
  name : String
  primary_id : Option Nat := none
  is_disabled : Bool := false
  is_template : Int := 0
  merge_names : Bool := false
  optional : Option Bool := none
  multiple : Option Bool := none
  alias_ : Option String := none
deriving Repr, DecidableEq

/-- A tree node: a `definition` leaf or a `scope` with ordered children.
Python's `primary_parent_scope` back-references are not stored in the tree;
the embedding passes the enclosing lexical chain explicitly wherever the
source walks parent pointers. -/
inductive Obj where
  | defn (d : DefnData) : Obj
  | scope (s : ScopeData) (objects : List Obj) : Obj
deriving Repr

namespace Obj

def name : Obj → String
  | .defn d => d.name
  | .scope s _ => s.name

def is_definition : Obj → Bool
  | .defn _ => true
  | .scope _ _ => false

def is_scope : Obj → Bool
  | .defn _ => false
  | .scope _ _ => true

def is_disabled : Obj → Bool
  | .defn d => d.is_disabled
  | .scope s _ => s.is_disabled

def is_template : Obj → Int
  | .defn d => d.is_template
  | .scope s _ => s.is_template

def primary_id : Obj → Option Nat
  | .defn d => d.primary_id
  | .scope s _ => s.primary_id

def merge_names : Obj → Bool
  | .defn d => d.merge_names
  | .scope s _ => s.merge_names

def multiple : Obj → Option Bool
  | .defn d => d.multiple
  | .scope s _ => s.multiple

def optional : Obj → Option Bool
  | .defn d => d.optional
  | .scope s _ => s.optional

/-- `definition.deprecated`; class attribute `scope.deprecated = False`
(common.py:1238). -/
def deprecated : Obj → Option Bool
  | .defn d => d.deprecated
  | .scope _ _ => some false

def alias_ : Obj → Option String
  | .defn d => d.alias_
  | .scope s _ => s.alias_

/-- `setIsTemplate o v`: in-place update of `is_template` (Python attribute
assignment on a fresh `copy()`). -/
def setIsTemplate : Obj → Int → Obj
  | .defn d, v => .defn { d with is_template := v }
  | .scope s os, v => .scope { s with is_template := v } os

end Obj

/-- `definition.customized_copy` (common.py:508-523): copy with new words,
resetting `is_template` to 0. -/
def DefnData.customized_copy (d : DefnData) (words : List Word) : DefnData :=
  { d with words := words, is_template := 0 }

/-- `scope.customized_copy` (common.py:1329-1346): copy with new child
objects, resetting `is_template` to 0. -/
def ScopeData.customized_copy (s : ScopeData) : ScopeData :=
  { s with is_template := 0 }

/-- Decidable structural equality on trees (used for concrete evaluation in
witnesses; Python compares nodes by identity, which the embedding renders as
structural equality — see the fetch comments). -/
def Obj.beq : Obj → Obj → Bool
  | .defn d1, .defn d2 => d1 == d2
  | .scope s1 os1, .scope s2 os2 =>
      s1 == s2 && go os1 os2
  | _, _ => false
where go : List Obj → List Obj → Bool
  | [], [] => true
  | o1 :: t1, o2 :: t2 => Obj.beq o1 o2 && go t1 t2
  | _, _ => false

instance : BEq Obj := ⟨Obj.beq⟩

/-- Structural induction for the nested tree type. -/
theorem Obj.inductionOn {P : Obj → Prop}
    (hd : ∀ d, P (.defn d))
    (hs : ∀ s os, (∀ o ∈ os, P o) → P (.scope s os)) : ∀ o, P o
  | .defn d => hd d
  | .scope s os => hs s os (fun o _ => Obj.inductionOn hd hs o)
termination_by o => sizeOf o
decreasing_by
  have hsz := List.sizeOf_lt_of_mem (by assumption : o ∈ os)
  simp only [Obj.scope.sizeOf_spec]
  omega

theorem Obj.beq_go_iff (l1 l2 : List Obj)
    (ih : ∀ o ∈ l1, ∀ b, Obj.beq o b = true ↔ o = b) :
    Obj.beq.go l1 l2 = true ↔ l1 = l2 := by
  induction l1 generalizing l2 with
  | nil => cases l2 <;> simp [Obj.beq.go]
  | cons h1 t1 ihl =>
    cases l2 with
    | nil => simp [Obj.beq.go]
    | cons h2 t2 =>
      simp only [Obj.beq.go, Bool.and_eq_true]
      rw [ih h1 (by simp), ihl t2 (fun o ho => ih o (by simp [ho]))]
      simp

theorem Obj.beq_iff (a b : Obj) : Obj.beq a b = true ↔ a = b := by
  induction a using Obj.inductionOn generalizing b with
  | hd d => cases b <;> simp [Obj.beq]
  | hs s os ih =>
    cases b with
    | defn _ => simp [Obj.beq]
    | scope s2 os2 =>
      simp only [Obj.beq, Bool.and_eq_true]
      rw [Obj.beq_go_iff os os2 ih]
      simp

instance : DecidableEq Obj := fun a b =>
  decidable_of_iff _ (Obj.beq_iff a b)

/-- Modelled from the spec: `tokenizer.word.__str__` from the absent
`tokenizer.py` — unquoted words print as their raw text; quoted words are
re-quoted with backslash escaping of the backslash and of the quote
character. -/
def Word.str (w : Word) : String :=
  match w.quoteToken with
  | none => w.value
  | some q =>
      let escaped := w.value.data.foldr
        (fun c acc =>
          if c = '\\' then '\\' :: '\\' :: acc
          else if c = q then '\\' :: q :: acc
          else c :: acc) []
      String.mk (q :: escaped ++ [q])

/-- Modelled from the spec: `is_plain_none` from the absent `tokens.py` —
a single unquoted word spelling (case-insensitively) `none`. -/
def isPlainNoneWords (words : List Word) : Bool :=
  match words with
  | [w] => w.quoteToken = none && strToLower w.value = "none"
  | _ => false

/-- Modelled from the spec: `is_plain_auto` from the absent `tokens.py`. -/
def isPlainAutoWords (words : List Word) : Bool :=
  match words with
  | [w] => w.quoteToken = none && strToLower w.value = "auto"
  | _ => false

mutual

/-- A Python value living in an extracted value graph: `None`, the `Auto`
sentinel, the list of strings extracted from an untyped definition, or a
`scope_extract` node (common.py:1004 ff.) with its `__phil_name__` and its
named attributes. -/
inductive PyVal where
  | pnone
  | pauto
  | strs (l : List String)
  | scopeE (name : String) (entries : List PEntry)
deriving Repr

/-- One named attribute of a `scope_extract`: a plain value, or a
`scope_extract_list` (common.py:998-1001) tagged with its optionality. -/
inductive PEntry where
  | single (name : String) (v : PyVal)
  | mlist (name : String) (optional : Option Bool) (items : List PyVal)
deriving Repr

end

def PEntry.name : PEntry → String
  | .single n _ => n
  | .mlist n _ _ => n

def PyVal.isNone : PyVal → Bool
  | .pnone => true
  | _ => false

/-- `getattr(self, name, scope_extract_attribute_error)` on a
`scope_extract` (attribute lookup by name). -/
def entriesGet (entries : List PEntry) (name : String) : Option PEntry :=
  entries.find? (fun e => e.name = name)

/-- `object.__setattr__(self, name, value)`: replace the attribute in
place, or create it. -/
def entriesSet : List PEntry → String → PEntry → List PEntry
  | [], _, e => [e]
  | x :: rest, name, e =>
    if x.name = name then e :: rest else x :: entriesSet rest name e

/-- Modelled from the spec: `strings_from_words` from the absent
`converters.py` — a single unquoted `none`/`auto` (case-insensitive) word
maps to the `None`/`Auto` placeholder, anything else to the list of word
texts. -/
def strings_from_words (words : List Word) : PyVal :=
  if isPlainNoneWords words then .pnone
  else if isPlainAutoWords words then .pauto
  else .strs (words.map Word.value)

/-- Modelled from the spec: `strings_as_words` from the absent
`converters.py` — the placeholders render as single unquoted
`None`/`Auto` words, strings as double-quoted words.  A `scope_extract`
cannot be serialized as words (Python raises). -/
def strings_as_words (v : PyVal) : Option (List Word) :=
  match v with
  | .pnone => some [{ value := "None" }]
  | .pauto => some [{ value := "Auto" }]
  | .strs l => some (l.map fun s => { value := s, quoteToken := some '"' })
  | .scopeE _ _ => none

/-- `variable_substitution_fragment` (common.py:2153-2159). -/
structure Fragment where
  is_variable : Bool
  value : String
deriving Repr, DecidableEq

/-- The `while True: ... if c == ")"` loop of the `$(...)` branch
(common.py:2193-2200): collect the characters up to the closing
parenthesis; `none` when it is missing. -/
def breakAtParen : List Char → Option (List Char × List Char)
  | [] => none
  | c :: r =>
    if c = ')' then some ([], r)
    else (breakAtParen r).map (fun p => (c :: p.1, p.2))

/-- The identifier run after `$` (common.py:2212-2221): take continuation
characters, stopping at the first `.`, at a non-continuation character, or
at the end; returns (run, remainder). -/
def identifierRun : List Char → (List Char × List Char)
  | [] => ([], [])
  | c :: r =>
    if c ≠ '.' && standardIdentifierContinuation c then
      let p := identifierRun r
      (c :: p.1, p.2)
    else ([], c :: r)

/-- The character scan of `variable_substitution_proxy.__init__`
(common.py:2166-2233), producing the fragment list and the
`have_variables` flag.  `litAcc` holds the current literal run in reverse;
`frags` accumulates finished fragments in order.  The scan consumes at
least one character per step, so the fuel (initialised to the word length
plus one) never runs out. -/
def scanFragments.go : Nat → List Char → List Char → Bool → List Fragment →
    Except PhilError (List Fragment × Bool)
  | 0, _, _, _, _ => .error .recursionLimit
  | _ + 1, [], litAcc, haveVars, frags =>
    .ok
      (if litAcc.isEmpty then frags
       else frags ++ [⟨false, String.mk litAcc.reverse⟩], haveVars)
  | fuel + 1, c :: rest, litAcc, haveVars, frags =>
    let flush : List Fragment := if litAcc.isEmpty then frags
      else frags ++ [⟨false, String.mk litAcc.reverse⟩]
    if c = '$' then
      match rest with
      | [] => .error (.syntaxError "$ must be followed by an identifier: ")
      | '(' :: r =>
        match breakAtParen r with
        | none => .error (.syntaxError "missing \")\": ")
        | some (inner, r2) =>
          let fv := String.mk inner
          let offs := if strStartsWith fv "." then 1 else 0
          if ¬ is_standard_identifier (strDrop fv offs) then
            .error (.syntaxError "improper variable name ")
          else
            scanFragments.go fuel r2 [] true (flush ++ [⟨true, fv⟩])
      | c2 :: r =>
        if ¬ standardIdentifierStart c2 then
          .error (.syntaxError "improper variable name ")
        else
          -- the identifier run stops at the first '.', at a
          -- non-continuation character, or at the end of the word
          scanFragments.go fuel (identifierRun r).2 [] true
            (flush ++ [⟨true, String.mk (c2 :: (identifierRun r).1)⟩])
    else
      match rest with
      | '$' :: r =>
        if c = '\\' then
          -- "\$" escapes the dollar: both characters stay literal
          scanFragments.go fuel r ('$' :: c :: litAcc) haveVars frags
        else
          scanFragments.go fuel rest (c :: litAcc) haveVars frags
      | _ => scanFragments.go fuel rest (c :: litAcc) haveVars frags

/-- Fragment scan of one word (`variable_substitution_proxy.__init__`). -/
def scanFragments (w : Word) : Except PhilError (List Fragment × Bool) :=
  scanFragments.go (w.value.data.length + 1) w.value.data [] false []

/-- `force_string` of `variable_substitution_proxy`: quoted words and
multi-fragment substitutions are force-joined into one string
(common.py:2168, 2232-2233). -/
def forceString (w : Word) (frags : List Fragment) : Bool :=
  w.quoteToken ≠ none || frags.length > 1

/-- A lexical frame: one scope on the `primary_parent_scope` chain, carrying
what `lexical_get`, `full_path` and `alias_path` read from it. -/
structure Frame where
  name : String
  alias_ : Option String
  objects : List Obj
deriving Repr, DecidableEq

/-- The candidate collection loop of `scope.lexical_get`
(common.py:1682-1690): scan the scope's objects in order, stopping at the
first object whose `primary_id` is at least `stop_id` (comparing an
existing id against a missing `stop_id` is a Python `TypeError`). -/
def lexicalCandidates (path : String) (stopId : Option Nat) :
    List Obj → Except PhilError (List Obj)
  | [] => .ok []
  | o :: rest => do
    match o.primary_id, stopId with
    | some _, none => .error .assertionFailure
    | some i, some s =>
      if i ≥ s then pure []
      else do
        let more ← lexicalCandidates path stopId rest
        pure (if lexicalMatches path o then o :: more else more)
    | none, _ => do
      let more ← lexicalCandidates path stopId rest
      pure (if lexicalMatches path o then o :: more else more)
where
  /-- a definition matches by exact name, a scope by name or path prefix -/
  lexicalMatches (path : String) (o : Obj) : Bool :=
    match o with
    | .defn d => d.name = path
    | .scope s _ => s.name = path || strStartsWith path (s.name ++ ".")

/-- The `while len(candidates) > 0: candidates.pop()` loop of
`lexical_get` (common.py:1691-1699): try candidates last-first; a
candidate scope whose name is a proper path prefix is searched via
`descendF` (the `search_up=False` recursion). -/
def lexicalScanCandidatesWith
    (descendF : String → List Frame → Except PhilError (Option (Obj × List Frame))) :
    List Obj → String → List Frame → Except PhilError (Option (Obj × List Frame))
  | [], _, _ => .ok none
  | o :: rest, path, frames =>
    if o.name = path then .ok (some (o, frames))
    else
      match o with
      | .scope s os => do
        match ← descendF (strDrop path (s.name.length + 1)) (⟨s.name, s.alias_, os⟩ :: frames) with
        | some r => pure (some r)
        | none => lexicalScanCandidatesWith descendF rest path frames
      | .defn _ =>
        -- a definition candidate only matches by full name (checked above)
        lexicalScanCandidatesWith descendF rest path frames

/-- `scope.lexical_get` (common.py:1677-1704).  `ctx` is the chain of
frames from the scope the lookup starts in (head) out to the root; the
result carries the found object together with its own frame chain.  The
fuel bound models Python's recursion limit. -/
def lexicalGet : Nat → String → Option Nat → List Frame → Bool →
    Except PhilError (Option (Obj × List Frame))
  | 0, _, _, _, _ => .error .recursionLimit
  | fuel + 1, path, stopId, frames, searchUp =>
    match frames with
    | [] => .ok none
    | frame :: outer =>
      if strStartsWith path "." then
        -- climb to the root of the chain, then search from there
        lexicalGet fuel (strDrop path 1) stopId
          [(frame :: outer).getLast (by simp)] searchUp
      else do
        let cands ← lexicalCandidates path stopId frame.objects
        match ← lexicalScanCandidatesWith
            (fun p fr => lexicalGet fuel p stopId fr false)
            cands.reverse path (frame :: outer) with
        | some r => pure (some r)
        | none =>
          if searchUp then lexicalGet fuel path stopId outer searchUp
          else pure none

/-- `" ".join([word.value for word in variable_words])` -/
def spaceJoinValues (ws : List Word) : String :=
  strIntercalate " " (ws.map Word.value)

/-- Resolution of one variable reference (common.py:886-915): lexical
lookup through the parent chain first (`lexF`; the hit must be a
definition and is itself recursively resolved via `resolveF`, in non-diff
mode); then the environment — in diff mode the environment step instead
yields the literal `$name` placeholder; otherwise an unresolved variable
is fatal. -/
def resolveVarFragmentWith
    (lexF : String → Except PhilError (Option (Obj × List Frame)))
    (resolveF : DefnData → List Frame → Except PhilError DefnData)
    (env : Env) (diffMode : Bool) (name : String) : Except PhilError (List Word) := do
  match ← lexF name with
  | some (o, octx) =>
    match o with
    | .defn dd => do
      let resolved ← resolveF dd octx
      pure resolved.words
    | .scope _ _ => .error (.notADefinition name)
  | none =>
    let envVar : Option String :=
      if diffMode then some ("$" ++ name) else env.get name
    match envVar with
    | some v => pure [⟨v, some '"'⟩]
    | none => .error (.undefinedVariable name)

/-- The `for fragment in substitution_proxy.fragments` loop: each fragment
resolves to its result words (literal fragments become double-quoted words;
variable fragments resolve via `varF`, space-joined into one word when
`force_string` is set). -/
def resolveFragmentListWith (varF : String → Except PhilError (List Word))
    (force : Bool) : List Fragment → Except PhilError (List (List Word))
  | [] => pure []
  | f :: fs => do
    let r ←
      if ¬ f.is_variable then
        pure [({ value := f.value, quoteToken := some '"' } : Word)]
      else do
        let vw ← varF f.value
        if force then
          pure [({ value := spaceJoinValues vw, quoteToken := some '"' } : Word)]
        else
          pure vw
    let more ← resolveFragmentListWith varF force fs
    pure (r :: more)

/-- Resolution of a single word: single-quoted words pass through verbatim;
otherwise the word is scanned into fragments and `get_new_words`
(common.py:2235-2245) assembles the result. -/
def resolveWordWith (varF : String → Except PhilError (List Word)) (w : Word) :
    Except PhilError (List Word) :=
  if w.quoteToken = some '\'' then pure [w]
  else do
    let (frags, haveVars) ← scanFragments w
    let force := forceString w frags
    let rs ← resolveFragmentListWith varF force frags
    if ¬ haveVars then
      pure [w]
    else if ¬ force then
      -- a single unquoted variable fragment splices its words in directly
      pure (rs.headD [])
    else
      -- fragments are force-joined into a single double-quoted token
      pure [⟨String.join (rs.map fun ws => String.join (ws.map Word.value)), some '"'⟩]

/-- The `for word in self.words` loop of `resolve_variables`. -/
def resolveWordListWith (varF : String → Except PhilError (List Word)) :
    List Word → Except PhilError (List Word)
  | [] => pure []
  | w :: ws => do
    let new ← resolveWordWith varF w
    let more ← resolveWordListWith varF ws
    pure (new ++ more)

/-- `definition.resolve_variables` (common.py:873-924).  `ctx` is the frame
chain of the definition's `primary_parent_scope` (empty = `None`); the
result is `customized_copy(words=new_words)`.  The `tmp` usage marks on
substitution sources are outside the modelled fragment.  The fuel bounds
the recursion through lexical substitution sources (Python's recursion
limit). -/
def resolve_variables : Nat → Env → Bool → DefnData → List Frame →
    Except PhilError DefnData
  | 0, _, _, _, _ => .error .recursionLimit
  | fuel + 1, env, diffMode, d, ctx => do
    let newWords ← resolveWordListWith
      (resolveVarFragmentWith
        (fun name =>
          if ctx.isEmpty then pure none
          else lexicalGet (fuel + 1) name d.primary_id ctx true)
        (fun dd octx => resolve_variables fuel env false dd octx)
        env diffMode)
      d.words
    pure (d.customized_copy newWords)

/-- `full_path` (common.py:234-244): the dotted path of a node named
`name` whose parent chain is `frames` (innermost first), stopping below the
nameless root. -/
def full_path (name : String) (frames : List Frame) : String :=
  go frames [name]
where go : List Frame → List String → String
  | [], acc => strIntercalate "." acc
  | f :: rest, acc =>
    if f.name = "" then strIntercalate "." acc
    else go rest (f.name :: acc)

/-- `alias_path` (common.py:247-266): the object's own alias, or the path
re-rooted at the nearest aliased ancestor; `none` when no alias is in
scope.  `acc` is Python's `result` list (append order). -/
def alias_path (objAlias : Option String) (name : String) (frames : List Frame) :
    Option String :=
  match objAlias with
  | some a => some a
  | none => go frames [name]
where go : List Frame → List String → Option String
  | [], _ => none
  | f :: rest, acc =>
    match f.alias_ with
    | some a => some (strIntercalate "." ((acc ++ [a]).reverse))
    | none => if f.name = "" then none else go rest (acc ++ [f.name])

/-- A source-tree node as handled during fetch.  A `real` node is an
original tree object together with its lexical frame chain (Python's
`primary_parent_scope` pointer).  A `wrapped` node is a scope produced by
`customized_copy` with a replaced object list (the combined-sources wrapper
of `scope.fetch` and the nameless wrapper of `scope.get`): its children
keep their own original chains, so they are carried explicitly. -/
inductive Src where
  | real (o : Obj) (ctx : List Frame)
  | wrapped (s : ScopeData) (children : List Src) (ctx : List Frame)
deriving Repr

def Src.name : Src → String
  | .real o _ => o.name
  | .wrapped s _ _ => s.name

def Src.is_disabled : Src → Bool
  | .real o _ => o.is_disabled
  | .wrapped s _ _ => s.is_disabled

def Src.is_definition : Src → Bool
  | .real o _ => o.is_definition
  | .wrapped _ _ _ => false

def Src.is_scope : Src → Bool := fun s => ¬ s.is_definition

def Src.ctx : Src → List Frame
  | .real _ c => c
  | .wrapped _ _ c => c

/-- The children of a scope-like source node; children of a real scope get
the scope's frame pushed onto their chain (Python parent pointers). -/
def Src.childSrcs : Src → List Src
  | .real (.defn _) _ => []
  | .real (.scope s os) ctx => os.map (fun o => Src.real o (⟨s.name, s.alias_, os⟩ :: ctx))
  | .wrapped _ cs _ => cs

/-- The `for object in self.active_objects()` loop of
`get_without_substitution`, with `getF` the per-child recursion. -/
def getWSListWith (getF : Src → Except PhilError (List Src)) :
    List Src → Except PhilError (List Src)
  | [] => .ok []
  | c :: cs => do
    let here ← getF c
    let more ← getWSListWith getF cs
    pure (here ++ more)

/-- `scope.get_without_substitution` / `definition.get_without_substitution`
(common.py:1639-1660, 752-757), over located source nodes.  The fuel bounds
the tree recursion (Python's recursion limit). -/
def getWS : Nat → Src → String → Option String → Except PhilError (List Src)
  | 0, _, _, _ => .error .recursionLimit
  | fuel + 1, src, path, aliasPath =>
    match src with
    | .real (.defn d) _ =>
      -- a definition matches by name, or by its name equalling the alias path
      if d.is_disabled ||
          (d.name ≠ path &&
            (match aliasPath with
             | none => true
             | some ap => d.name ≠ ap)) then
        .ok []
      else .ok [src]
    | _ =>
      -- scope (real or wrapped)
      if src.is_disabled then .ok []
      else if src.name = "" then
        if path = "" then .ok src.childSrcs
        else
          getWSListWith (fun c => getWS fuel c path aliasPath)
            (src.childSrcs.filter (fun c => ¬ c.is_disabled))
      else if src.name = path || (aliasPath = some src.name) then .ok [src]
      else if strStartsWith path (src.name ++ ".") then
        getWSListWith (fun c => getWS fuel c (strDrop path (src.name.length + 1)) aliasPath)
          (src.childSrcs.filter (fun c => ¬ c.is_disabled))
      else
        match aliasPath with
        | some ap =>
          -- when the node's full path extends the alias path, strip one
          -- component; otherwise the path is passed through unchanged
          let fp := full_path src.name src.ctx
          let path' := if strStartsWith fp ap then strDrop path (src.name.length + 1) else path
          getWSListWith (fun c => getWS fuel c path' aliasPath)
            (src.childSrcs.filter (fun c => ¬ c.is_disabled))
        | none => .ok []

/-- `scope.master_active_objects` (common.py:1482-1504): iterate active
children; a repeated name is skipped when the first occurrence is marked
`multiple`, is a fatal error when the duplicate is a definition, and is
yielded otherwise.  `seen` maps each already-seen name to the `multiple`
flag of its first occurrence (Python's `names_object`). -/
def master_active_objects_loop :
    List Obj → List (String × Option Bool) → Except PhilError (List Obj)
  | [], _ => .ok []
  | o :: rest, seen =>
    if o.is_disabled then master_active_objects_loop rest seen
    else
      match seen.lookup o.name with
      | none => do
        let more ← master_active_objects_loop rest ((o.name, o.multiple) :: seen)
        pure (o :: more)
      | some firstMultiple =>
        if firstMultiple = some true then
          master_active_objects_loop rest seen
        else if o.is_definition then
          .error (.duplicateDefinitions o.name)
        else do
          let more ← master_active_objects_loop rest seen
          pure (o :: more)

/-- `scope.master_active_objects` on a scope's object list. -/
def master_active_objects (objects : List Obj) : Except PhilError (List Obj) :=
  master_active_objects_loop objects []

mutual

/-- `scope_extract.__phil_join__` (common.py:1100-1125): merge the
attributes of `other` into `self`, one at a time. -/
def philJoin (self : List PEntry) (other : List PEntry) :
    Except PhilError (List PEntry) :=
  match other with
  | [] => pure self
  | e :: rest => do
    let self' ← philJoinOne self e
    philJoin self' rest

/-- One iteration of the `__phil_join__` loop, merging attribute `e` of
the other node into `self`:
* a missing or `None`-valued attribute is overwritten;
* a `scope_extract_list` attribute appends the other list's non-`None`
  items, then drops a leading `None` once a real value has arrived
  (the other value must itself be a list);
* a nested `scope_extract` attribute joins recursively when the other
  value is a `scope_extract`, is left alone when the other value is a
  `scope_extract_list` (its Python `__dict__` holds only reserved keys),
  and is a Python `AttributeError` otherwise;
* any other attribute (no `__phil_join__` method) is overwritten. -/
def philJoinOne (self : List PEntry) (e : PEntry) :
    Except PhilError (List PEntry) :=
  match entriesGet self e.name with
  | none => pure (entriesSet self e.name e)
  | some (.single _ .pnone) => pure (entriesSet self e.name e)
  | some (.mlist n o items) =>
    match e with
    | .mlist _ _ otherItems =>
      let items1 := items ++ otherItems.filter (fun it => ¬ it.isNone)
      let items2 :=
        if items1.length > 1 then
          match items1 with
          | .pnone :: restItems => restItems
          | _ => items1
        else items1
      pure (entriesSet self e.name (.mlist n o items2))
    | .single _ _ => .error .assertionFailure
  | some (.single n (.scopeE en ees)) =>
    match e with
    | .single _ (.scopeE _ ves) => do
      let joined ← philJoin ees ves
      pure (entriesSet self e.name (.single n (.scopeE en joined)))
    | .mlist _ _ _ => pure self
    | .single _ _ => .error .assertionFailure
  | some (.single _ _) => pure (entriesSet self e.name e)

end

/-- The third argument of `scope_extract.__phil_set__`: either the
`scope_extract_is_disabled` marker or a real value. -/
inductive SetVal where
  | disabled
  | val (v : PyVal)

/-- `scope_extract.__phil_set__` (common.py:1127-1148). -/
def philSet (entries : List PEntry) (name : String) (opt mult : Option Bool)
    (value : SetVal) : Except PhilError (List PEntry) :=
  if strContainsChar name '.' then .error .assertionFailure
  else if mult ≠ some true then
    -- non-multiple: the disabled marker becomes None; nested
    -- scope_extract values join, everything else overwrites
    let v : PyVal := match value with | .disabled => .pnone | .val v => v
    match entriesGet entries name, v with
    | some (.single n2 (.scopeE en ees)), .scopeE _ ves => do
      let joined ← philJoin ees ves
      pure (entriesSet entries name (.single n2 (.scopeE en joined)))
    | _, _ => pure (entriesSet entries name (.single name v))
  else
    -- multiple: ensure the scope_extract_list exists, then append unless
    -- the value is the disabled marker, or None under optional=True
    let node : PEntry :=
      match entriesGet entries name with
      | none => .mlist name opt []
      | some node => node
    match value with
    | .disabled => pure (entriesSet entries name node)
    | .val v =>
      if v.isNone && opt = some true then pure (entriesSet entries name node)
      else
        match node with
        | .mlist n o items => pure (entriesSet entries name (.mlist n o (items ++ [v])))
        | .single _ _ => .error .assertionFailure

/-- `scope_extract.__phil_get__` (common.py:1150-1152). -/
def philGet (py : PyVal) (name : String) : Option PEntry :=
  match py with
  | .scopeE _ entries => entriesGet entries name
  | _ => none

mutual

/-- `scope.extract` / `definition.extract` (common.py:1706-1729, 781-793):
an untyped definition extracts to its word strings; a scope builds a
`scope_extract`, skipping `is_template < 0` children and recording
disabled or positive-template children through the disabled marker. -/
def extract : Obj → Except PhilError PyVal
  | .defn d => pure (strings_from_words d.words)
  | .scope s os => do
    let entries ← extractLoop os []
    pure (.scopeE s.name entries)

/-- The `for object in self.objects` loop of `scope.extract`. -/
def extractLoop : List Obj → List PEntry → Except PhilError (List PEntry)
  | [], acc => pure acc
  | o :: rest, acc =>
    if o.is_template < 0 then extractLoop rest acc
    else do
      let value ←
        if o.is_disabled || o.is_template > 0 then pure SetVal.disabled
        else do
          let v ← extract o
          pure (SetVal.val v)
      let acc' ← philSet acc o.name o.optional o.multiple value
      extractLoop rest acc'

end

theorem master_active_objects_loop_sublist :
    ∀ (l : List Obj) (seen : List (String × Option Bool)) (r : List Obj),
    master_active_objects_loop l seen = .ok r → r.Sublist l := by
  intro l
  induction l with
  | nil =>
    intro seen r h
    simp only [master_active_objects_loop, Except.ok.injEq] at h
    simp [← h]
  | cons o rest ih =>
    intro seen r h
    rw [master_active_objects_loop] at h
    by_cases hd : o.is_disabled = true
    · rw [if_pos hd] at h
      exact (ih _ _ h).cons o
    · rw [if_neg hd] at h
      cases hl : (seen.lookup o.name) with
      | none =>
        rw [hl] at h
        cases hm : master_active_objects_loop rest ((o.name, o.multiple) :: seen) with
        | error e =>
          rw [hm] at h
          simp [bind, Except.bind] at h
        | ok more =>
          rw [hm] at h
          simp only [bind, Except.bind, pure, Except.pure, Except.ok.injEq] at h
          rw [← h]
          exact (ih _ _ hm).cons₂ o
      | some fm =>
        rw [hl] at h
        simp only at h
        by_cases hfm : fm = some true
        · rw [if_pos hfm] at h
          exact (ih _ _ h).cons o
        · rw [if_neg hfm] at h
          by_cases hdef : o.is_definition = true
          · simp [hdef] at h
          · simp only [hdef, Bool.false_eq_true, if_false] at h
            cases hm : master_active_objects_loop rest seen with
            | error e =>
              rw [hm] at h
              simp [bind, Except.bind] at h
            | ok more =>
              rw [hm] at h
              simp only [bind, Except.bind, pure, Except.pure, Except.ok.injEq] at h
              rw [← h]
              exact (ih _ _ hm).cons₂ o

theorem sublistSizeOfLE {l1 l2 : List Obj} (h : l1.Sublist l2) :
    sizeOf l1 ≤ sizeOf l2 := by
  induction h with
  | slnil => exact le_refl _
  | cons a _ ih => simp only [List.cons.sizeOf_spec]; omega
  | cons₂ a _ ih => simp only [List.cons.sizeOf_spec]; omega

/-- `definition.format` (common.py:795-816) for an untyped definition:
serialize the Python value back to words and return a customized copy. -/
def formatDefn (d : DefnData) (py : PyVal) : Except PhilError DefnData :=
  match strings_as_words py with
  | none => .error .assertionFailure
  | some ws => pure (d.customized_copy ws)

/-- `multiple_scopes_done[name] = value` (dict update). -/
def assocSet : List (String × Bool) → String → Bool → List (String × Bool)
  | [], k, v => [(k, v)]
  | (k', v') :: rest, k, v =>
    if k' = k then (k, v) :: rest else (k', v') :: assocSet rest k v

/-- The `for sub_python_object_i in sub_python_object` loop of
`scope.format`: one realized copy per list element (`formatF` is the
recursive format of the master child). -/
def formatItemsWith (formatF : Obj → PyVal → Except PhilError Obj) (o : Obj) :
    List PyVal → Except PhilError (List Obj)
  | [] => pure []
  | it :: restItems => do
    let f ← formatF o it
    let more ← formatItemsWith formatF o restItems
    pure (f :: more)

/-- The `for object in self.master_active_objects()` loop of `scope.format`,
threading the `multiple_scopes_done` dict and the result list. -/
def formatLoopWith (formatF : Obj → PyVal → Except PhilError Obj) (py : PyVal) :
    List Obj → List (String × Bool) → List Obj →
    Except PhilError (List (String × Bool) × List Obj)
  | [], done, acc => pure (done, acc)
  | o :: rest, done, acc =>
    if o.multiple = some true && o.is_scope && (done.lookup o.name).isSome then
      formatLoopWith formatF py rest done acc
    else
      let done1 := if o.multiple = some true && o.is_scope
        then (o.name, false) :: done else done
      match py with
      | .pnone => do
        let f ← formatF o .pnone
        formatLoopWith formatF py rest done1 (acc ++ [f])
      | .pauto => do
        let f ← formatF o .pauto
        formatLoopWith formatF py rest done1 (acc ++ [f])
      | .strs _ =>
        -- iterating a plain list of strings: every attribute lookup on a
        -- raw string misses, so every child is skipped
        formatLoopWith formatF py rest done1 acc
      | .scopeE _ entries =>
        match entriesGet entries o.name with
        | none => formatLoopWith formatF py rest done1 acc
        | some entry =>
          if o.multiple ≠ some true then
            match entry with
            | .single _ v => do
              let f ← formatF o v
              formatLoopWith formatF py rest done1 (acc ++ [f])
            | .mlist _ _ _ =>
              -- a list-shaped attribute under a non-multiple master child
              -- cannot be re-serialized (Python garbles/raises)
              .error .assertionFailure
          else
            match entry with
            | .single _ _ =>
              -- `len()` of a non-list attribute under a multiple child
              .error .assertionFailure
            | .mlist _ _ items =>
              if items.isEmpty then
                formatLoopWith formatF py rest done1 (acc ++ [o.setIsTemplate 1])
              else
                let emitTemplate := done1.lookup o.name = some false
                let done2 := if emitTemplate then assocSet done1 o.name true else done1
                let acc2 := if emitTemplate then acc ++ [o.setIsTemplate (-1)] else acc
                do
                  let fs ← formatItemsWith formatF o items
                  formatLoopWith formatF py rest done2 (acc2 ++ fs)

/-- `scope.format` / `definition.format` (common.py:1731-1775, 795-816).
The fuel bounds the tree recursion (Python's recursion limit). -/
def formatObj : Nat → Obj → PyVal → Except PhilError Obj
  | 0, _, _ => .error .recursionLimit
  | fuel + 1, .defn d, py => do
    let d' ← formatDefn d py
    pure (.defn d')
  | fuel + 1, .scope s os, py => do
    let actives ← master_active_objects os
    let res ← formatLoopWith (fun o v => formatObj fuel o v) py actives [] []
    pure (.scope s.customized_copy res.2)

/-- The `for word in self.words` loop of `definition.show`
(common.py:696-703): append words to the current line, wrapping with a
`" \\"` continuation when the line would overflow. -/
def defnShowLoop (indent : String) (width : Nat) : List Word → String → String
  | [], line => line ++ "\n"
  | w :: ws, line =>
    let linePlus := line ++ " " ++ w.str
    if linePlus.length > width - 2 && line.length > indent.length then
      line ++ " \\\n" ++ defnShowLoop indent width ws (indent ++ " " ++ w.str)
    else
      defnShowLoop indent width ws linePlus

/-- `definition.show` (common.py:646-710) at the default serialization
settings (`expert_level=None`, `attributes_level=0`, `print_width=79`):
realized-template and deprecated definitions print nothing; otherwise
`[!]name = words`, line-wrapped. -/
def defnShow (d : DefnData) (mergedNames : List String) (pre : String) : String :=
  if d.is_template < 0 then ""
  else if d.deprecated = some true then ""
  else
    let hash := if d.is_disabled then "!" else ""
    let line0 := pre ++ hash ++ strIntercalate "." (mergedNames ++ [d.name])
    let line1 := if d.name ≠ "include" then line0 ++ " =" else line0
    let indent := String.mk (List.replicate line1.length ' ')
    defnShowLoop indent 79 d.words line1

mutual

/-- `scope.show` / `definition.show` (common.py:1506-1583) at the default
serialization settings.  A scope whose first child has `merge_names` prints
merged into the child's line; the root (empty-name) scope prints only its
children and requires no accumulated merged names (Python `assert`). -/
def objShow : Obj → List String → String → Except PhilError String
  | .defn d, merged, pre => pure (defnShow d merged pre)
  | .scope s os, merged, pre =>
    if s.is_template < 0 then pure ""
    else if s.name = "" then
      if ¬ merged.isEmpty then .error .assertionFailure
      else objShowList os merged pre
    else if (match os with | o :: _ => o.merge_names | [] => false) then
      objShowList os (merged ++ [s.name]) pre
    else do
      let hash := if s.is_disabled then "!" else ""
      let mergedName := strIntercalate "." (merged ++ [s.name])
      -- show_attributes prints nothing at attributes_level 0
      let body ← objShowList os [] (pre ++ "  ")
      pure (pre ++ hash ++ mergedName ++ " \x7b\n" ++ body ++ pre ++ "\x7d\n")

/-- The `for object in self.objects` loop of `scope.show`. -/
def objShowList : List Obj → List String → String → Except PhilError String
  | [], _, _ => pure ""
  | o :: rest, merged, pre => do
    let s1 ← objShow o merged pre
    let s2 ← objShowList rest merged pre
    pure (s1 ++ s2)

end

/-- `as_str()` at default settings. -/
def asStr (o : Obj) : Except PhilError String :=
  objShow o [] ""

/-- `extract_format(source).as_str()` (common.py:818-829, 1777-1788,
1585-1608): the canonical serialized form used by fetch for diffing and
multiplicity dedup — re-extract the source through the master and print. -/
def extractFormatAsStr (fuel : Nat) (master source : Obj) : Except PhilError String := do
  let py ← extract source
  let f ← formatObj fuel master py
  asStr f

/-- The fetch computation: fatal `PhilError`s plus accumulated
(non-fatal) `PhilWarning`s — Python's `warnings.warn` side channel. -/
abbrev FetchM (α : Type) := StateT (List PhilWarning) (Except PhilError) α

/-- `warnings.warn(..., PhilDeprecationWarning)` -/
def warn (w : PhilWarning) : FetchM Unit := modify (fun l => l ++ [w])

def liftE {α : Type} (e : Except PhilError α) : FetchM α := StateT.lift e

/-- Python `==` on the values produced by `strings_from_words`
(`None` / `Auto` / list of strings). -/
def pyStringsBEq : PyVal → PyVal → Bool
  | .pnone, .pnone => true
  | .pauto, .pauto => true
  | .strs a, .strs b => a == b
  | _, _ => false

/-- `definition.fetch_value` (common.py:545-577) for an untyped master
definition.  `selfFrames` is the master's parent chain (for the
deprecation warning's full path).  Returns `none` when the master is
deprecated and the source value is unchanged. -/
def fetch_value (fuel : Nat) (env : Env) (self : DefnData) (selfFrames : List Frame)
    (source : Src) (diffMode skipIncompatible : Bool) : FetchM (Option DefnData) :=
  match source with
  | .real (.defn sd) sctx => do
    -- `source.tmp = True` (unused-tracking) is outside the modelled fragment
    let resolved ← liftE (resolve_variables fuel env diffMode sd sctx)
    if self.deprecated = some true then
      if pyStringsBEq (strings_from_words resolved.words) (strings_from_words self.words) then
        pure none
      else do
        warn (.deprecation (full_path self.name selfFrames))
        pure (some (self.customized_copy resolved.words))
    else
      pure (some (self.customized_copy resolved.words))
  | _ =>
    -- fetching a definition against a scope
    if skipIncompatible then pure (some self)
    else liftE (.error .incompatibleObjects)

/-- `definition.fetch_diff` (common.py:579-598): value-fetch in diff mode,
dropped when the canonical form equals the master's own. -/
def defnFetchDiff (fuel : Nat) (env : Env) (self : DefnData) (selfFrames : List Frame)
    (source : Src) (skipIncompatible : Bool) : FetchM (Option DefnData) := do
  let result ← fetch_value fuel env self selfFrames source true skipIncompatible
  let resStr ← liftE (extractFormatAsStr fuel (.defn self) (.defn (result.getD self)))
  let selfStr ← liftE (extractFormatAsStr fuel (.defn self) (.defn self))
  if resStr = selfStr then pure none else pure result

/-- `definition.fetch` (common.py:600-618). -/
def defnFetch (fuel : Nat) (env : Env) (self : DefnData) (selfFrames : List Frame)
    (source : Src) (diff skipIncompatible : Bool) : FetchM (Option DefnData) :=
  if diff then defnFetchDiff fuel env self selfFrames source skipIncompatible
  else fetch_value fuel env self selfFrames source false skipIncompatible

/-- The source-combination step of `scope.fetch` (common.py:1838-1855):
check each source's name, reject (or skip) definition sources, and
concatenate all sources' children. -/
def combineSources (sName : String) (skipIncompatible : Bool) :
    List Src → Except PhilError (List Src)
  | [] => .ok []
  | src :: rest =>
    if src.name ≠ sName then .error .assertionFailure
    else if src.is_definition then
      if skipIncompatible then combineSources sName skipIncompatible rest
      else .error .incompatibleObjects
    else do
      let more ← combineSources sName skipIncompatible rest
      pure (src.childSrcs ++ more)

/-- The `for matching_source in matching_sources.active_objects()` loop for
a non-multiple definition (common.py:1871-1878): every match is fetched
(for unused-tracking), and the last result overwrites the earlier ones. -/
def fetchDefnSourcesLoop (fuel : Nat) (env : Env) (master : DefnData)
    (mFrames : List Frame) (diff skipIncompatible : Bool) :
    List Src → Option DefnData → FetchM (Option DefnData)
  | [], acc => pure acc
  | m :: ms, _ => do
    let r ← defnFetch fuel env master mFrames m diff skipIncompatible
    fetchDefnSourcesLoop fuel env master mFrames diff skipIncompatible ms r

/-- `processed_as_str[key] = value` (dict update; `-1` marks a
suppressed-in-diff master-side duplicate). -/
def assocSetInt : List (String × Int) → String → Int → List (String × Int)
  | [], k, v => [(k, v)]
  | (k', v') :: rest, k, v =>
    if k' = k then (k, v) :: rest else (k', v') :: assocSetInt rest k v

/-- `matching_source is master_object`: CPython object identity, rendered
structurally — the node and its frame chain both coincide.  (Faithful
whenever the master's same-named siblings are pairwise distinct, which
holds in every verified scenario.) -/
def isSameNode (m : Src) (o : Obj) (ctx : List Frame) : Bool :=
  match m with
  | .real o' c' => o' == o && c' == ctx
  | .wrapped _ _ _ => false

/-- `master_object.fetch(source=...)` for one candidate source
(`scopeFetchF` is the recursive scope fetch). -/
def fetchOneWith (scopeFetchF : ScopeData → List Obj → List Frame → List Src → FetchM Obj)
    (fuel : Nat) (env : Env) (mo : Obj) (moFrames : List Frame) (m : Src)
    (diff skipIncompatible : Bool) : FetchM (Option Obj) :=
  match mo with
  | .defn d => do
    let r ← defnFetch fuel env d moFrames m diff skipIncompatible
    pure (r.map Obj.defn)
  | .scope cs cos => do
    let r ← scopeFetchF cs cos moFrames [m]
    pure (some r)

/-- The candidate loop of the multiple branch (common.py:1895-1927),
over the master-side and then the source-side matches, threading
`processed_as_str` and `result_objs`.  `fetchOneF` fetches one candidate;
`candStrF` is its canonical serialized form through the master. -/
def fetchMultiLoopWith (fetchOneF : Src → FetchM (Option Obj))
    (candStrF : Obj → Except PhilError String)
    (mo : Obj) (moFrames : List Frame) (diff : Bool) (masterAsStr : String) :
    List (Bool × Src) → List (String × Int) → List (Option Obj) →
    FetchM (List (String × Int) × List (Option Obj))
  | [], processed, resultObjs => pure (processed, resultObjs)
  | (fromMaster, m) :: ps, processed, resultObjs =>
    if isSameNode m mo moFrames then
      fetchMultiLoopWith fetchOneF candStrF mo moFrames diff masterAsStr
        ps processed resultObjs
    else do
      let candidate ← fetchOneF m
      if diff && (match mo, candidate with
          | .scope _ _, some (Obj.scope _ []) => true
          | .defn _, none => true
          | _, _ => false) then
        fetchMultiLoopWith fetchOneF candStrF mo moFrames diff masterAsStr
          ps processed resultObjs
      else do
        let candStr ← liftE (candStrF (candidate.getD mo))
        if candStr = masterAsStr then
          fetchMultiLoopWith fetchOneF candStrF mo moFrames diff masterAsStr
            ps processed resultObjs
        else
          match processed.lookup candStr with
          | some idx =>
            if idx = -1 then
              fetchMultiLoopWith fetchOneF candStrF mo moFrames diff masterAsStr
                ps processed resultObjs
            else
              -- a later duplicate replaces the earlier one positionally
              let resultObjs1 := resultObjs.set idx.toNat none
              if diff && fromMaster then
                fetchMultiLoopWith fetchOneF candStrF mo moFrames diff masterAsStr
                  ps (assocSetInt processed candStr (-1)) resultObjs1
              else
                fetchMultiLoopWith fetchOneF candStrF mo moFrames diff masterAsStr
                  ps (assocSetInt processed candStr resultObjs1.length)
                  (resultObjs1 ++ [candidate])
          | none =>
            if diff && fromMaster then
              fetchMultiLoopWith fetchOneF candStrF mo moFrames diff masterAsStr
                ps (assocSetInt processed candStr (-1)) resultObjs
            else
              fetchMultiLoopWith fetchOneF candStrF mo moFrames diff masterAsStr
                ps (assocSetInt processed candStr resultObjs.length)
                (resultObjs ++ [candidate])

/-- The `for master_object in self.master_active_objects()` loop of
`scope.fetch` (`scopeFetchF` is the recursive scope fetch for sub-scopes
and multiple scope candidates). -/
def fetchActivesLoopWith (scopeFetchF : ScopeData → List Obj → List Frame → List Src → FetchM Obj)
    (fuel : Nat) (env : Env) (s : ScopeData) (os : List Obj)
    (mframes : List Frame) (srcWrapper masterSrc : Src) (diff skipIncompatible : Bool) :
    List Obj → List Obj → FetchM (List Obj)
  | [], acc => pure acc
  | mo :: rest, acc => do
    let selfFrame : Frame := ⟨s.name, s.alias_, os⟩
    let path := if s.name = "" then mo.name else s.name ++ "." ++ mo.name
    let aliasP := alias_path mo.alias_ mo.name (selfFrame :: mframes)
    let matching ← liftE (getWS fuel srcWrapper path aliasP)
    let matchingActive := matching.filter (fun m => ¬ m.is_disabled)
    if mo.multiple ≠ some true then do
      let resultObject : Option Obj ←
        match mo with
        | .defn d => do
          let r ← fetchDefnSourcesLoop fuel env d (selfFrame :: mframes)
            diff skipIncompatible matchingActive none
          pure (r.map Obj.defn)
        | .scope cs cos => do
          let r ← scopeFetchF cs cos (selfFrame :: mframes) matchingActive
          if diff && (match r with | .scope _ [] => true | _ => false) then
            pure none
          else pure (some r)
      let acc' :=
        match resultObject with
        | some r => acc ++ [r]
        | none =>
          if ¬ diff && mo.deprecated ≠ some true then acc ++ [mo] else acc
      fetchActivesLoopWith scopeFetchF fuel env s os mframes srcWrapper masterSrc
        diff skipIncompatible rest acc'
    else do
      -- multiple-valued child: dedup by canonical serialized form
      let masterAsStr ← liftE (extractFormatAsStr fuel mo mo)
      let masterMatches ← liftE (getWS fuel masterSrc path none)
      let masterActive := masterMatches.filter (fun m => ¬ m.is_disabled)
      let pairs := masterActive.map (fun m => (true, m)) ++
        matchingActive.map (fun m => (false, m))
      let pr ← fetchMultiLoopWith
        (fun m => fetchOneWith scopeFetchF fuel env mo (selfFrame :: mframes) m
          diff skipIncompatible)
        (fun obj => extractFormatAsStr fuel mo obj)
        mo (selfFrame :: mframes) diff masterAsStr pairs [] []
      let acc1 :=
        if ¬ diff then
          let tmpl : Int :=
            if mo.optional = some false then 0
            else if pr.1.isEmpty then 1
            else -1
          acc ++ [mo.setIsTemplate tmpl]
        else acc
      let acc2 := acc1 ++ pr.2.filterMap id
      fetchActivesLoopWith scopeFetchF fuel env s os mframes srcWrapper masterSrc
        diff skipIncompatible rest acc2

/-- `scope.fetch` (common.py:1807-1948) without unused-definition
tracking: combine the sources' children, then reconcile every master
active object against the matching source occurrences.  `mframes` is the
master scope's own parent chain; the fuel bounds the tree recursion
(Python's recursion limit). -/
def scopeFetch : Nat → Env → ScopeData → List Obj → List Frame → List Src →
    Bool → Bool → FetchM Obj
  | 0, _, _, _, _, _, _, _ => liftE (.error .recursionLimit)
  | fuel + 1, env, s, os, mframes, sources, diff, skipIncompatible => do
    let combined ← liftE (combineSources s.name skipIncompatible sources)
    let srcWrapper := Src.wrapped s.customized_copy combined mframes
    let masterSrc := Src.real (Obj.scope s os) mframes
    let actives ← liftE (master_active_objects os)
    let res ← fetchActivesLoopWith
      (fun cs cos fr srcs => scopeFetch fuel env cs cos fr srcs diff skipIncompatible)
      fuel env s os mframes srcWrapper masterSrc diff skipIncompatible actives []
    pure (.scope s.customized_copy res)

/-- Rename an object and set its `merge_names` flag (the dotted-name
splitting step of `adopt`). -/
def Obj.rename : Obj → String → Bool → Obj
  | .defn d, n, mn => .defn { d with name := n, merge_names := mn }
  | .scope s os, n, mn => .scope { s with name := n, merge_names := mn } os

/-- The nested-scope chain built by `scope.adopt` for a dotted name:
one fresh scope per leading component (the first keeps `merge_names`
false, the rest merge), with the renamed object innermost. -/
def adoptChain (n : String) : List String → Obj → Bool → Obj
  | [], o, _ => o
  | [last], o, mergeOuter =>
    .scope { name := n, merge_names := mergeOuter } [o.rename last true]
  | next :: restComps, o, mergeOuter =>
    .scope { name := n, merge_names := mergeOuter } [adoptChain next restComps o true]

/-- `scope.adopt` (common.py:1381-1396) on a scope's object list: a
dotted-named object is wrapped in a fresh chain of scopes (so adjacent
dotted definitions produce separate same-named sibling scopes). -/
def adopt (objs : List Obj) (o : Obj) : List Obj :=
  match splitDot o.name with
  | [] => objs ++ [o]
  | [_] => objs ++ [o]
  | c :: cs => objs ++ [adoptChain c cs o false]

mutual

/-- "No member is disabled and no member is a template": the hypothesis of
the extract/format round-trip law, checked over the whole tree. -/
def noDisabledNoTemplate : Obj → Bool
  | .defn d => !d.is_disabled && d.is_template == 0
  | .scope s os =>
    !s.is_disabled && s.is_template == 0 && noDisabledNoTemplateList os

def noDisabledNoTemplateList : List Obj → Bool
  | [] => true
  | o :: rest => noDisabledNoTemplate o && noDisabledNoTemplateList rest

end

mutual

/-- Discard the ordering-insensitive template bookkeeping from a tree:
drop template-flagged members, zero the flags, and forget quoting styles
(`format` re-quotes every value, so "structural equality" compares word
texts). -/
def normalize : Obj → Obj
  | .defn d =>
    .defn { d with
      is_template := 0
      words := d.words.map (fun w => { value := w.value, quoteToken := none }) }
  | .scope s os => .scope { s with is_template := 0 } (normalizeList os)

/-- drop template-flagged members, normalize the rest -/
def normalizeList : List Obj → List Obj
  | [] => []
  | o :: rest =>
    if o.is_template == 0 then normalize o :: normalizeList rest
    else normalizeList rest

end

/-! ## Verified properties -/

theorem is_reserved_identifier_iff (name : String) :
    is_reserved_identifier name = true ↔
      (5 ≤ name.length ∧ strStartsWith name "__" = true ∧ strEndsWith name "__" = true) := by
  unfold is_reserved_identifier
  by_cases h5 : name.length < 5
  · simp only [h5, if_true]
    constructor
    · intro h; exact absurd h (by simp)
    · intro ⟨h, _⟩; omega
  · simp only [h5, if_false, Bool.and_eq_true]
    constructor
    · intro ⟨h1, h2⟩; exact ⟨by omega, h1, h2⟩
    · intro ⟨_, h1, h2⟩; exact ⟨h1, h2⟩

theorem definitionNameCheck_dunder_iff (name : String) :
    definitionNameCheck name = .error (.reservedIdentifier name) ↔
      is_reserved_identifier name = true := by
  unfold definitionNameCheck
  by_cases hr : is_reserved_identifier name = true
  · simp [hr]
  · simp only [hr, Bool.false_eq_true, if_false, iff_false]
    split <;> simp

theorem scopeNameCheck_dunder_iff (name : String) :
    scopeNameCheck name = .error (.reservedIdentifier name) ↔
      is_reserved_identifier name = true := by
  unfold scopeNameCheck
  by_cases hr : is_reserved_identifier name = true
  · simp [hr]
  · simp only [hr, Bool.false_eq_true, if_false, iff_false]
    split <;> simp

/-- **C10.** Constructing a definition or a scope raises the dunder-style
reserved-identifier error exactly when the name has length at least 5,
starts with `__`, and ends with `__`; in particular `"____"` and `"__x"`
are accepted as valid node names by both constructors. -/
theorem c10_dunder_reservation :
    (∀ name : String,
      (definitionNameCheck name = .error (.reservedIdentifier name) ↔
        (5 ≤ name.length ∧ strStartsWith name "__" = true ∧ strEndsWith name "__" = true)) ∧
      (scopeNameCheck name = .error (.reservedIdentifier name) ↔
        (5 ≤ name.length ∧ strStartsWith name "__" = true ∧ strEndsWith name "__" = true))) ∧
    definitionNameCheck "____" = .ok () ∧ scopeNameCheck "____" = .ok () ∧
    definitionNameCheck "__x" = .ok () ∧ scopeNameCheck "__x" = .ok () := by
  refine ⟨fun name => ⟨?_, ?_⟩, by decide, by decide, by decide, by decide⟩
  · exact (definitionNameCheck_dunder_iff name).trans (is_reserved_identifier_iff name)
  · exact (scopeNameCheck_dunder_iff name).trans (is_reserved_identifier_iff name)

/-- **C9 counterexample.** The claim says a definition named exactly
`"include"` must be rejected; the code accepts it (the guard
`name != "include"` exempts the bare directive name,
common.py:468). -/
theorem c9_counterexample : definitionNameCheck "include" = .ok () := by decide

/-- **C9 (amended).** A scope name raises the reserved-include error
exactly when (not dunder-reserved and) some dotted component equals
`"include"`; a definition raises it exactly when additionally the whole
name is not the bare `"include"` (which is the include directive itself
and is accepted). -/
theorem c9_include_reservation (name : String) :
    (scopeNameCheck name = .error (.reservedInclude name) ↔
      (is_reserved_identifier name = false ∧
        (splitDot name).contains "include" = true)) ∧
    (definitionNameCheck name = .error (.reservedInclude name) ↔
      (is_reserved_identifier name = false ∧ name ≠ "include" ∧
        (splitDot name).contains "include" = true)) := by
  constructor
  · unfold scopeNameCheck
    by_cases hr : is_reserved_identifier name = true
    · simp [hr]
    · simp only [hr, Bool.false_eq_true, if_false]
      rw [Bool.not_eq_true] at hr
      by_cases hc : (splitDot name).contains "include" = true
      · simp [hc, hr]
      · simp [hc, hr]
  · unfold definitionNameCheck
    by_cases hr : is_reserved_identifier name = true
    · simp [hr]
    · simp only [hr, Bool.false_eq_true, if_false]
      rw [Bool.not_eq_true] at hr
      by_cases hne : name = "include"
      · simp [hne, hr]
      · by_cases hc : (splitDot name).contains "include" = true
        · simp [hne, hc, hr]
        · simp [hne, hc, hr]

def c5x : Obj := .scope { name := "a" } []
def c5y : Obj := .scope { name := "a", optional := some true } []

/-- **C5 counterexample.** The claim says any two active same-named
siblings with a non-multiple first occurrence are a fatal schema error;
but when the *later* duplicate is a scope, `master_active_objects`
(common.py:1491: `if object.is_definition`) yields both without error. -/
theorem c5_counterexample : master_active_objects [c5x, c5y] = .ok [c5x, c5y] := by
  decide

/-- **C5 (amended).** For two active same-named siblings: if the first is
marked `multiple=True` the duplicate is silently skipped; otherwise a
*definition* duplicate is a fatal schema error, while a *scope* duplicate
is yielded without error. -/
theorem c5_duplicate_siblings (x y : Obj) (hname : y.name = x.name)
    (hx : x.is_disabled = false) (hy : y.is_disabled = false) :
    master_active_objects [x, y] =
      (if x.multiple = some true then .ok [x]
       else if y.is_definition = true then .error (.duplicateDefinitions y.name)
       else .ok [x, y]) := by
  unfold master_active_objects
  rw [master_active_objects_loop]
  simp only [hx, Bool.false_eq_true, if_false, List.lookup_nil]
  rw [master_active_objects_loop]
  simp only [hy, Bool.false_eq_true, if_false, List.lookup_cons]
  rw [show (y.name == x.name) = true by simp [hname]]
  simp only [cond_true]
  by_cases hm : x.multiple = some true
  · simp [hm, master_active_objects_loop, bind, Except.bind, pure, Except.pure]
  · simp only [hm, if_false]
    by_cases hd : y.is_definition = true
    · simp [hd, bind, Except.bind]
    · simp [hd, master_active_objects_loop, bind, Except.bind, pure, Except.pure]

/-- Witness for the amended C5 at concrete inputs: a definition duplicate
of a non-multiple first occurrence is the fatal duplicate error. -/
theorem c5_duplicate_siblings_witness :
    master_active_objects [Obj.scope { name := "a" } [], Obj.defn { name := "a", words := [] }] =
      .error (.duplicateDefinitions "a") := by
  exact (c5_duplicate_siblings (Obj.scope { name := "a" } [])
    (Obj.defn { name := "a", words := [] }) rfl rfl rfl).trans (by decide)

def c8d : DefnData := { name := "x", words := [⟨"$HOME/data", none⟩], primary_id := some 1 }

/-- **C8.** For the unquoted value `$HOME/data`, with the definition sitting
in a root scope where lexical lookup of `HOME` finds nothing, and the
environment mapping `HOME` to `/root`, non-diff variable resolution yields
exactly one double-quoted word `/root/data`. -/
theorem c8_environment_fallback :
    resolve_variables 10 [("HOME", "/root")] false c8d [⟨"", none, [.defn c8d]⟩] =
      .ok { c8d with words := [⟨"/root/data", some '"'⟩] } := by
  decide

def c7d : DefnData := { name := "x", words := [⟨"$HOME", none⟩], primary_id := some 1 }
def c7env : Env := [("HOME", "$y"), ("y", "z")]

/-- **C7 counterexample.** Variable resolution is *not* idempotent in
general: an environment fallback can inject a fresh `$` sequence
(common.py:903-911 inserts the environment value verbatim as a
double-quoted word), so a second resolution substitutes again and the
word sequences differ. -/
theorem c7_counterexample :
    resolve_variables 10 c7env false c7d [] = .ok { c7d with words := [⟨"$y", some '"'⟩] } ∧
    resolve_variables 10 c7env false { c7d with words := [⟨"$y", some '"'⟩] } [] =
      .ok { c7d with words := [⟨"z", some '"'⟩] } ∧
    ([(⟨"z", some '"'⟩ : Word)] ≠ [(⟨"$y", some '"'⟩ : Word)]) := by
  refine ⟨by decide, by decide, by decide⟩

/-- Modelled from the spec: the parse result of the master text
`"a.b=1\na.c=2"` — the external parser turns each line into a dotted-named
definition (with increasing `primary_id`s) and `adopt`s it into the root
scope, so each dotted line produces its own `a` scope chain. -/
def c1master : List Obj :=
  adopt
    (adopt [] (.defn { name := "a.b", words := [⟨"1", none⟩], primary_id := some 1 }))
    (.defn { name := "a.c", words := [⟨"2", none⟩], primary_id := some 2 })

/-- Modelled from the spec: the parse result of the source text `"a.b=5"`. -/
def c1source : List Obj :=
  adopt [] (.defn { name := "a.b", words := [⟨"5", none⟩], primary_id := some 1 })

/-- **C1.** Fetching master `"a.b=1\na.c=2"` against source `"a.b=5"`
yields `a.b=5` (from the source) and `a.c=2` (the master default), with no
warnings. -/
theorem c1_fetch_scenario :
    (scopeFetch 20 [] { name := "" } c1master []
        [Src.real (.scope { name := "" } c1source) []] false false).run [] =
      .ok
        (.scope { name := "" }
          [.scope { name := "a" }
            [.defn { name := "b", words := [⟨"5", none⟩], primary_id := some 1, merge_names := true }],
           .scope { name := "a" }
            [.defn { name := "c", words := [⟨"2", none⟩], primary_id := some 2, merge_names := true }]],
         []) := by
  rfl

def c6t : Obj :=
  .scope { name := "" }
    [.defn { name := "x", words := [⟨"None", none⟩], multiple := some true, optional := some true }]

def c6f : Obj :=
  .scope { name := "" }
    [.defn { name := "x", words := [⟨"None", none⟩], is_template := 1, multiple := some true, optional := some true }]

/-- **C6 counterexample.** The round-trip law fails on a tree with no
disabled and no templated members: a `multiple=True, optional=True`
definition whose value is the `None` placeholder is dropped by
`__phil_set__` (common.py:1145-1148), so `format(extract(t))` re-emits it
only as an unrealized template node (`is_template = 1`) — after discarding
template bookkeeping the parameter is gone from the round-tripped tree. -/
theorem c6_counterexample :
    noDisabledNoTemplate c6t = true ∧
    extract c6t = .ok (.scopeE "" [.mlist "x" (some true) []]) ∧
    formatObj 10 c6t (.scopeE "" [.mlist "x" (some true) []]) = .ok c6f ∧
    normalize c6f ≠ normalize c6t := by
  refine ⟨rfl, rfl, rfl, ?_⟩
  decide

/-- A word on which substitution has nothing left to do: single-quoted, or
its scan finds no (unescaped) variable reference. -/
def wordHasNoSub (w : Word) : Bool :=
  w.quoteToken == some '\'' ||
    (match scanFragments w with
     | .ok (_, false) => true
     | _ => false)

theorem scan_go_false (fuel : Nat) : ∀ (cs lit : List Char) (hv : Bool)
    (frags fr : List Fragment),
    scanFragments.go fuel cs lit hv frags = .ok (fr, false) →
    hv = false ∧ ((∀ f ∈ frags, f.is_variable = false) → ∀ f ∈ fr, f.is_variable = false) := by
  induction fuel with
  | zero =>
    intro cs lit hv frags fr h
    simp [scanFragments.go] at h
  | succ n ih =>
    intro cs lit hv frags fr h
    cases cs with
    | nil =>
      simp only [scanFragments.go, Except.ok.injEq, Prod.mk.injEq] at h
      obtain ⟨hfr, hhv⟩ := h
      subst hhv
      refine ⟨rfl, fun hlit f hf => ?_⟩
      rw [← hfr] at hf
      by_cases he : lit.isEmpty
      · rw [if_pos he] at hf
        exact hlit f hf
      · rw [if_neg he] at hf
        rcases List.mem_append.mp hf with h1 | h2
        · exact hlit f h1
        · simp only [List.mem_singleton] at h2
          rw [h2]
    | cons c rest =>
      simp only [scanFragments.go] at h
      by_cases hc : c = '$'
      · rw [if_pos hc] at h
        repeat' split at h
        all_goals
          first
            | exact absurd (ih _ _ _ _ _ h).1 (by simp)
            | simp at h
      · rw [if_neg hc] at h
        repeat' split at h
        all_goals exact ih _ _ _ _ _ h

/-- A word scan that reports `have_variables = False` yields only literal
fragments. -/
theorem scanFragments_no_vars {w : Word} {frags : List Fragment}
    (h : scanFragments w = .ok (frags, false)) :
    ∀ f ∈ frags, f.is_variable = false := by
  unfold scanFragments at h
  exact (scan_go_false _ _ _ _ _ _ h).2 (by intro f hf; simp at hf)

/-- Literal fragments resolve without consulting the variable resolver:
each becomes its double-quoted word (common.py:2239-2241). -/
theorem resolveFragmentListWith_literal
    (varF : String → Except PhilError (List Word)) (force : Bool) :
    ∀ (frags : List Fragment), (∀ f ∈ frags, f.is_variable = false) →
    resolveFragmentListWith varF force frags =
      .ok (frags.map fun f => [({ value := f.value, quoteToken := some '"' } : Word)])
  | [], _ => rfl
  | f :: fs, h => by
    have hf : f.is_variable = false := h f (List.mem_cons_self f fs)
    have ih := resolveFragmentListWith_literal varF force fs
      (fun g hg => h g (List.mem_cons_of_mem f hg))
    simp only [resolveFragmentListWith, hf, Bool.false_eq_true, not_false_iff,
      if_true, ih, List.map_cons]
    rfl

/-- Resolution of a word with no substitution work left is the identity
(common.py:2242-2243: `if not self.have_variables: return None` keeps the
original word). -/
theorem resolveWordWith_noSub (varF : String → Except PhilError (List Word))
    (w : Word) (h : wordHasNoSub w = true) : resolveWordWith varF w = .ok [w] := by
  by_cases hq : w.quoteToken = some '\''
  · unfold resolveWordWith
    rw [if_pos hq]
    rfl
  · unfold wordHasNoSub at h
    have hq' : (w.quoteToken == some '\'') = false := by
      simp [hq]
    rw [hq', Bool.false_or] at h
    cases hs : scanFragments w with
    | error e => rw [hs] at h; simp at h
    | ok p =>
      obtain ⟨frags, hv⟩ := p
      rw [hs] at h
      cases hv with
      | true => simp at h
      | false =>
        have hlit := scanFragments_no_vars hs
        unfold resolveWordWith
        rw [if_neg hq, hs]
        show (resolveFragmentListWith varF (forceString w frags) frags).bind _ = _
        rw [resolveFragmentListWith_literal varF _ frags hlit]
        rfl

/-- The word loop of `resolve_variables` is the identity on a word list
with no substitution work left. -/
theorem resolveWordListWith_noSub (varF : String → Except PhilError (List Word)) :
    ∀ (ws : List Word), (∀ w ∈ ws, wordHasNoSub w = true) →
    resolveWordListWith varF ws = .ok ws
  | [], _ => rfl
  | w :: ws, h => by
    have hw := resolveWordWith_noSub varF w (h w (List.mem_cons_self w ws))
    have ih := resolveWordListWith_noSub varF ws
      (fun g hg => h g (List.mem_cons_of_mem w hg))
    simp only [resolveWordListWith]
    rw [hw]
    show (resolveWordListWith varF ws).bind _ = _
    rw [ih]
    rfl

/-- **C7 (amended).** Variable resolution is the identity (up to
`customized_copy`, which re-installs the same words) on any definition all
of whose words are substitution-free: single-quoted, or scanning clean of
unescaped `$` references.  In particular re-resolving an already-resolved
definition whose result words contain no `$` sequences yields the same
word sequence — the spec's idempotence holds exactly on `$`-free results,
and the counterexample shows it can fail otherwise. -/
theorem c7_amended (fuel : Nat) (env : Env) (diffMode : Bool) (d : DefnData)
    (ctx : List Frame) (h : ∀ w ∈ d.words, wordHasNoSub w = true) :
    resolve_variables (fuel + 1) env diffMode d ctx =
      .ok (d.customized_copy d.words) := by
  unfold resolve_variables
  rw [resolveWordListWith_noSub _ d.words h]
  rfl

/-- The amended C7 theorem at a concrete input: the already-resolved word
`/root/data` (double-quoted, no `$`) passes through resolution unchanged. -/
theorem c7_amended_witness :
    (∀ w ∈ ({ name := "x", words := [⟨"/root/data", some '"'⟩] } : DefnData).words,
       wordHasNoSub w = true) ∧
    resolve_variables 1 [] false { name := "x", words := [⟨"/root/data", some '"'⟩] } [] =
      .ok (DefnData.customized_copy { name := "x", words := [⟨"/root/data", some '"'⟩] }
            [⟨"/root/data", some '"'⟩]) :=
  ⟨by decide, c7_amended 0 [] false { name := "x", words := [⟨"/root/data", some '"'⟩] } []
    (by decide)⟩

/-- Combining a list of nameless root source scopes concatenates their
children in declaration order (common.py:1838-1855). -/
theorem combineSources_roots (skip : Bool) :
    ∀ (roots : List (List Obj)),
    combineSources "" skip (roots.map fun cs => Src.real (.scope { name := "" } cs) []) =
      .ok ((roots.map fun cs => cs.map fun o => Src.real o [⟨"", none, cs⟩]).flatten)
  | [] => rfl
  | cs :: rest => by
    have ih := combineSources_roots skip rest
    simp only [List.map_cons, combineSources, List.flatten_cons]
    rw [if_neg (by simp [Src.name, Obj.name]),
      if_neg (by simp [Src.is_definition, Obj.is_definition]), ih]
    rfl

/-- `get_without_substitution` over a list of definition sources: the
matches are exactly the active sources carrying the requested name, kept in
list order. -/
theorem getWS_defn_children (fuel : Nat) (path : String) :
    ∀ (l : List Src), (∀ c ∈ l, ∃ e ctx, c = Src.real (.defn e) ctx) →
    getWSListWith (fun c => getWS (fuel + 1) c path none)
        (l.filter fun c => ¬ c.is_disabled) =
      .ok (l.filter fun c => ¬ c.is_disabled && c.name = path)
  | [], _ => rfl
  | c :: cs, h => by
    obtain ⟨e, ctx, rfl⟩ := h c (List.mem_cons_self c cs)
    have ih := getWS_defn_children fuel path cs (fun g hg => h g (List.mem_cons_of_mem _ hg))
    rw [List.filter_cons, List.filter_cons]
    by_cases hd : e.is_disabled
    · rw [if_neg (by simp [Src.is_disabled, Obj.is_disabled, hd]),
        if_neg (by simp [Src.is_disabled, Obj.is_disabled, hd]), ih]
    · by_cases hn : e.name = path
      · rw [if_pos (by simp [Src.is_disabled, Obj.is_disabled, hd]),
          if_pos (by simp [Src.is_disabled, Obj.is_disabled, Src.name, Obj.name, hd, hn])]
        simp only [getWSListWith]
        rw [show getWS (fuel + 1) (Src.real (Obj.defn e) ctx) path none =
            Except.ok [Src.real (Obj.defn e) ctx] from by simp [getWS, hd, hn]]
        rw [ih]
        rfl
      · rw [if_pos (by simp [Src.is_disabled, Obj.is_disabled, hd]),
          if_neg (by simp [Src.is_disabled, Obj.is_disabled, Src.name, Obj.name, hd, hn])]
        simp only [getWSListWith]
        rw [show getWS (fuel + 1) (Src.real (Obj.defn e) ctx) path none =
            Except.ok [] from by simp [getWS, hd, hn]]
        rw [ih]
        rfl

/-- The non-multiple matching-source loop (common.py:1871-1878) returns the
fetch result of its **last** source: every earlier accumulator is
overwritten, so when the loop succeeds its value is exactly what fetching
the last matching occurrence alone produces (from some warning state). -/
theorem fetchDefnSourcesLoop_last (fuel : Nat) (env : Env) (master : DefnData)
    (mFrames : List Frame) (diff skip : Bool) (mlast : Src) :
    ∀ (ms : List Src) (acc : Option DefnData) (st w : List PhilWarning)
      (r : Option DefnData),
    (fetchDefnSourcesLoop fuel env master mFrames diff skip (ms ++ [mlast]) acc).run st =
      .ok (r, w) →
    ∃ st0, (defnFetch fuel env master mFrames mlast diff skip).run st0 = .ok (r, w)
  | [], acc, st, w, r => by
    intro h
    simp only [List.nil_append, fetchDefnSourcesLoop] at h
    rw [StateT.run_bind] at h
    cases hx : (defnFetch fuel env master mFrames mlast diff skip).run st with
    | error e =>
      rw [hx] at h
      exact absurd
        (show (Except.error e : Except PhilError (Option DefnData × List PhilWarning)) =
          .ok (r, w) from h) (by simp)
    | ok p =>
      obtain ⟨a, s'⟩ := p
      rw [hx] at h
      have h' : (Except.ok (a, s') : Except PhilError (Option DefnData × List PhilWarning)) =
          .ok (r, w) := h
      simp only [Except.ok.injEq, Prod.mk.injEq] at h'
      obtain ⟨h1, h2⟩ := h'
      subst h1
      subst h2
      exact ⟨st, hx⟩
  | m :: ms, acc, st, w, r => by
    intro h
    simp only [List.cons_append, fetchDefnSourcesLoop] at h
    rw [StateT.run_bind] at h
    cases hx : (defnFetch fuel env master mFrames m diff skip).run st with
    | error e =>
      rw [hx] at h
      exact absurd
        (show (Except.error e : Except PhilError (Option DefnData × List PhilWarning)) =
          .ok (r, w) from h) (by simp)
    | ok p =>
      obtain ⟨a, s'⟩ := p
      rw [hx] at h
      have h' : (fetchDefnSourcesLoop fuel env master mFrames diff skip (ms ++ [mlast]) a).run s' =
          .ok (r, w) := h
      exact fetchDefnSourcesLoop_last fuel env master mFrames diff skip mlast
        ms a s' w r h'

/-- Running a lifted successful pure computation leaves the warning state
unchanged. -/
theorem run_liftE_ok {α : Type} (a : α) (st : List PhilWarning) :
    (liftE (Except.ok a) : FetchM α).run st = .ok (a, st) := rfl

/-- Bind on a successful `Except` applies the continuation. -/
theorem exceptOkBind {α β : Type} (a : α) (f : α → Except PhilError β) :
    (Except.ok a >>= f : Except PhilError β) = f a := rfl

/-- **C2.** For a master root scope holding one active non-multiple
definition `d` (no alias, nonempty name) and any list of nameless root
source scopes whose children are all definitions, the matching occurrences
are gathered in the concatenated declaration order of all sources; when
that list splits as `ms ++ [mlast]`, a successful `scope.fetch` returns
exactly the value fetched from `mlast` alone — the earlier matches `ms`
have no effect on the resulting value. -/
theorem c2_last_match_wins (fuel : Nat) (env : Env) (d : DefnData) (skip : Bool)
    (srcRoots : List (List Obj)) (st w : List PhilWarning) (r : Obj)
    (ms : List Src) (mlast : Src)
    (hd1 : d.is_disabled = false) (hd2 : d.multiple ≠ some true)
    (hd3 : d.alias_ = none) (hname : d.name ≠ "")
    (hdefs : ∀ cs ∈ srcRoots, ∀ o ∈ cs, o.is_definition = true)
    (hsplit : ((srcRoots.map fun cs => cs.map fun o => Src.real o [⟨"", none, cs⟩]).flatten.filter
        fun c => ¬ c.is_disabled && c.name = d.name) = ms ++ [mlast])
    (h : (scopeFetch (fuel + 3) env { name := "" } [.defn d] []
        (srcRoots.map fun cs => Src.real (.scope { name := "" } cs) []) false skip).run st =
      .ok (r, w)) :
    ∃ st0 v,
      (defnFetch (fuel + 2) env d [⟨"", none, [Obj.defn d]⟩] mlast false skip).run st0 =
        .ok (v, w) ∧
      r = Obj.scope (ScopeData.customized_copy { name := "" })
        (match v with
         | some vd => [Obj.defn vd]
         | none => if d.deprecated ≠ some true then [Obj.defn d] else []) := by
  have hL : ∀ c ∈ (srcRoots.map fun cs => cs.map fun o =>
      Src.real o [⟨"", none, cs⟩]).flatten, ∃ e ctx, c = Src.real (.defn e) ctx := by
    intro c hc
    rw [List.mem_flatten] at hc
    obtain ⟨l, hl, hcl⟩ := hc
    rw [List.mem_map] at hl
    obtain ⟨cs, hcs, rfl⟩ := hl
    rw [List.mem_map] at hcl
    obtain ⟨o, ho, rfl⟩ := hcl
    have hod := hdefs cs hcs o ho
    cases o with
    | defn e => exact ⟨e, _, rfl⟩
    | scope s os => simp [Obj.is_definition] at hod
  have hact : master_active_objects [Obj.defn d] = .ok [Obj.defn d] := by
    unfold master_active_objects master_active_objects_loop
    rw [if_neg (by simp [Obj.is_disabled, hd1])]
    rfl
  have halias : alias_path none d.name [⟨"", none, [Obj.defn d]⟩] = none := rfl
  have hmatch : getWS (fuel + 2)
      (Src.wrapped (ScopeData.customized_copy { name := "" })
        ((srcRoots.map fun cs => cs.map fun o => Src.real o [⟨"", none, cs⟩]).flatten) [])
      d.name none = .ok (ms ++ [mlast]) := by
    have hstep : getWS (fuel + 2)
        (Src.wrapped (ScopeData.customized_copy { name := "" })
          ((srcRoots.map fun cs => cs.map fun o => Src.real o [⟨"", none, cs⟩]).flatten) [])
        d.name none =
        (if d.name = "" then
          Except.ok ((srcRoots.map fun cs => cs.map fun o => Src.real o [⟨"", none, cs⟩]).flatten)
         else getWSListWith (fun c => getWS (fuel + 1) c d.name none)
          (((srcRoots.map fun cs => cs.map fun o =>
            Src.real o [⟨"", none, cs⟩]).flatten).filter fun c => ¬ c.is_disabled)) := rfl
    rw [hstep, if_neg hname, getWS_defn_children fuel d.name _ hL, hsplit]
  have hfa : ((ms ++ [mlast]).filter fun m => ¬ m.is_disabled) = ms ++ [mlast] := by
    rw [← hsplit, List.filter_filter]
    apply List.filter_congr
    intro c _
    cases hc : c.is_disabled <;> simp [hc]
  simp only [scopeFetch, fetchActivesLoopWith, combineSources_roots skip srcRoots,
    hact, hmatch, hfa, Obj.name, Obj.alias_, Obj.multiple, Obj.deprecated, hd2, hd3,
    halias, StateT.run_bind, run_liftE_ok, exceptOkBind, ne_eq, not_false_eq_true,
    if_true, reduceIte] at h
  cases hx : (fetchDefnSourcesLoop (fuel + 2) env d
      [⟨"", none, [Obj.defn d]⟩] false skip (ms ++ [mlast]) none).run st with
  | error e =>
    rw [hx] at h
    exact absurd (show (Except.error e : Except PhilError (Obj × List PhilWarning)) =
      .ok (r, w) from h) (by simp)
  | ok p =>
    obtain ⟨v, s1⟩ := p
    rw [hx] at h
    obtain ⟨st0, hrun⟩ := fetchDefnSourcesLoop_last (fuel + 2) env d
      [⟨"", none, [Obj.defn d]⟩] false skip mlast ms none st s1 v hx
    cases v with
    | some vd =>
      have h' : (Except.ok (Obj.scope (ScopeData.customized_copy { name := "" })
          [Obj.defn vd], s1) : Except PhilError (Obj × List PhilWarning)) = .ok (r, w) := h
      simp only [Except.ok.injEq, Prod.mk.injEq] at h'
      obtain ⟨h1, h2⟩ := h'
      subst h2
      exact ⟨st0, some vd, hrun, h1.symm⟩
    | none =>
      by_cases hdep : d.deprecated = some true
      · have h' : (Except.ok (Obj.scope (ScopeData.customized_copy { name := "" })
            [], s1) : Except PhilError (Obj × List PhilWarning)) = .ok (r, w) := by
          rw [← h]
          simp [hdep, StateT.run_pure, exceptOkBind]
        simp only [Except.ok.injEq, Prod.mk.injEq] at h'
        obtain ⟨h1, h2⟩ := h'
        subst h2
        refine ⟨st0, none, hrun, ?_⟩
        rw [← h1]
        simp [hdep]
      · have h' : (Except.ok (Obj.scope (ScopeData.customized_copy { name := "" })
            [Obj.defn d], s1) : Except PhilError (Obj × List PhilWarning)) = .ok (r, w) := by
          rw [← h]
          simp [hdep, StateT.run_pure, exceptOkBind]
        simp only [Except.ok.injEq, Prod.mk.injEq] at h'
        obtain ⟨h1, h2⟩ := h'
        subst h2
        refine ⟨st0, none, hrun, ?_⟩
        rw [← h1]
        simp [hdep]

def c2d : DefnData := { name := "p", words := [⟨"0", none⟩] }
def c2e1 : DefnData := { name := "p", words := [⟨"1", none⟩] }
def c2e2 : DefnData := { name := "p", words := [⟨"2", none⟩] }
def c2mlast : Src := Src.real (.defn c2e2) [⟨"", none, [.defn c2e2]⟩]

/-- The C2 theorem at a concrete input: master default `p=0`, two sources
setting `p=1` and `p=2`; fetch succeeds and the value is the one fetched
from the second (last) matching source alone. -/
theorem c2_last_match_wins_witness :
    ∃ st0 v,
      (defnFetch 2 [] c2d [⟨"", none, [Obj.defn c2d]⟩] c2mlast false false).run st0 =
        .ok (v, []) ∧
      Obj.scope (ScopeData.customized_copy { name := "" })
          [.defn (c2d.customized_copy [⟨"2", none⟩])] =
        Obj.scope (ScopeData.customized_copy { name := "" })
          (match v with
           | some vd => [Obj.defn vd]
           | none => if c2d.deprecated ≠ some true then [Obj.defn c2d] else []) :=
  c2_last_match_wins 0 [] c2d false [[.defn c2e1], [.defn c2e2]] [] []
    (Obj.scope (ScopeData.customized_copy { name := "" })
      [.defn (c2d.customized_copy [⟨"2", none⟩])])
    [Src.real (.defn c2e1) [⟨"", none, [.defn c2e1]⟩]] c2mlast
    rfl (by decide) rfl (by decide)
    (by intro cs hcs o ho; fin_cases hcs <;> (fin_cases ho; rfl)) rfl rfl

/-- A single active definition child passes `master_active_objects`
unchanged. -/
theorem master_active_objects_single (d : DefnData) (hd1 : d.is_disabled = false) :
    master_active_objects [Obj.defn d] = .ok [Obj.defn d] := by
  unfold master_active_objects master_active_objects_loop
  rw [if_neg (by simp [Obj.is_disabled, hd1])]
  rfl

/-- Running `warnings.warn` appends the warning to the state. -/
theorem run_warn (w : PhilWarning) (st : List PhilWarning) :
    (warn w).run st = .ok ((), st ++ [w]) := rfl

/-- Resolution of a substitution-free definition keeps its words (the
shared engine behind the C4/C7 scenarios). -/
theorem resolve_variables_noSub (fuel : Nat) (env : Env) (diffMode : Bool)
    (e : DefnData) (ctx : List Frame) (hns : ∀ w ∈ e.words, wordHasNoSub w = true) :
    resolve_variables (fuel + 1) env diffMode e ctx = .ok (e.customized_copy e.words) := by
  unfold resolve_variables
  rw [resolveWordListWith_noSub _ e.words hns]
  rfl

/-- **C4.** For a master root scope holding one active non-multiple
definition `d` marked `.deprecated=True` and a source root setting the same
parameter to substitution-free words: when the source words stringify
identically to the master's own default, fetch omits the parameter
entirely and emits no warning; otherwise fetch includes the new value and
emits a deprecation warning — carried on the `PhilWarning` side channel,
distinct from the fatal `PhilError`s. -/
theorem c4_deprecated_fetch (fuel : Nat) (env : Env) (d e : DefnData) (skip : Bool)
    (hdep : d.deprecated = some true)
    (hd1 : d.is_disabled = false) (hd2 : d.multiple ≠ some true)
    (hd3 : d.alias_ = none) (hname : d.name ≠ "")
    (he1 : e.is_disabled = false) (hen : e.name = d.name)
    (hns : ∀ w ∈ e.words, wordHasNoSub w = true) :
    (scopeFetch (fuel + 3) env { name := "" } [.defn d] []
        [Src.real (.scope { name := "" } [.defn e]) []] false skip).run [] =
      (if pyStringsBEq (strings_from_words e.words) (strings_from_words d.words) then
        .ok (Obj.scope (ScopeData.customized_copy { name := "" }) [], [])
       else
        .ok (Obj.scope (ScopeData.customized_copy { name := "" })
          [.defn (d.customized_copy e.words)], [.deprecation d.name])) := by
  have hcomb : combineSources "" skip [Src.real (.scope { name := "" } [.defn e]) []] =
      .ok [Src.real (.defn e) [⟨"", none, [.defn e]⟩]] := rfl
  have hact := master_active_objects_single d hd1
  have halias : alias_path none d.name [⟨"", none, [Obj.defn d]⟩] = none := rfl
  have hL : ∀ c ∈ [Src.real (.defn e) [⟨"", none, [.defn e]⟩]],
      ∃ e' ctx, c = Src.real (.defn e') ctx := by
    intro c hc
    simp only [List.mem_singleton] at hc
    subst hc
    exact ⟨e, _, rfl⟩
  have hm : getWS (fuel + 2) (Src.wrapped (ScopeData.customized_copy { name := "" })
      [Src.real (.defn e) [⟨"", none, [.defn e]⟩]] []) d.name none =
      .ok [Src.real (.defn e) [⟨"", none, [.defn e]⟩]] := by
    have hstep : getWS (fuel + 2) (Src.wrapped (ScopeData.customized_copy { name := "" })
        [Src.real (.defn e) [⟨"", none, [.defn e]⟩]] []) d.name none =
        (if d.name = "" then .ok [Src.real (.defn e) [⟨"", none, [.defn e]⟩]]
         else getWSListWith (fun c => getWS (fuel + 1) c d.name none)
          ([Src.real (.defn e) [⟨"", none, [.defn e]⟩]].filter fun c => ¬ c.is_disabled)) := rfl
    rw [hstep, if_neg hname, getWS_defn_children fuel d.name _ hL, List.filter_cons,
      if_pos (by simp [Src.is_disabled, Obj.is_disabled, Src.name, Obj.name, he1, hen])]
    rfl
  have hfa : ([Src.real (.defn e) [⟨"", none, [.defn e]⟩]].filter
      fun m => ¬ m.is_disabled) = [Src.real (.defn e) [⟨"", none, [.defn e]⟩]] := by
    rw [List.filter_cons, if_pos (by simp [Src.is_disabled, Obj.is_disabled, he1])]
    rfl
  have hres := resolve_variables_noSub (fuel + 1) env false e [⟨"", none, [.defn e]⟩] hns
  have hfp : full_path d.name [(⟨"", none, [Obj.defn d]⟩ : Frame)] = d.name := rfl
  by_cases hsame : pyStringsBEq (strings_from_words e.words) (strings_from_words d.words) = true
  · rw [if_pos hsame]
    simp only [scopeFetch, fetchActivesLoopWith, fetchDefnSourcesLoop, defnFetch, fetch_value,
      hcomb, hact, hm, hfa, hres, hfp, hsame, DefnData.customized_copy,
      Obj.name, Obj.alias_, Obj.multiple, Obj.deprecated, hd2, hd3, hdep, halias,
      StateT.run_bind, StateT.run_pure, run_liftE_ok, run_warn, exceptOkBind, ne_eq,
      not_false_eq_true, if_true, Bool.false_eq_true, reduceIte]
    rfl
  · rw [if_neg hsame]
    simp only [scopeFetch, fetchActivesLoopWith, fetchDefnSourcesLoop, defnFetch, fetch_value,
      hcomb, hact, hm, hfa, hres, hfp, hsame, DefnData.customized_copy,
      Obj.name, Obj.alias_, Obj.multiple, Obj.deprecated, hd2, hd3, hdep, halias,
      StateT.run_bind, StateT.run_pure, run_liftE_ok, run_warn, exceptOkBind, ne_eq,
      not_false_eq_true, if_true, Bool.false_eq_true, reduceIte]
    rfl

def c4d : DefnData := { name := "old", words := [⟨"1", none⟩], deprecated := some true }
def c4e : DefnData := { name := "old", words := [⟨"2", none⟩] }

/-- The C4 theorem at a concrete input: deprecated master `old=1`, source
`old=2` — the changed value is fetched and one deprecation warning is
emitted. -/
theorem c4_deprecated_fetch_witness :
    (scopeFetch 3 [] { name := "" } [.defn c4d] []
        [Src.real (.scope { name := "" } [.defn c4e]) []] false false).run [] =
      (if pyStringsBEq (strings_from_words c4e.words) (strings_from_words c4d.words) then
        .ok (Obj.scope (ScopeData.customized_copy { name := "" }) [], [])
       else
        .ok (Obj.scope (ScopeData.customized_copy { name := "" })
          [.defn (c4d.customized_copy c4e.words)], [.deprecation c4d.name])) :=
  c4_deprecated_fetch 0 [] c4d c4e false rfl rfl (by decide) rfl (by decide) rfl rfl
    (by decide)

/-- **C3.** For a master root scope with a `multiple=True` child `m` and two
source roots each adding an extra entry for that child that fetches to the
same canonical serialized form (`extract_format().as_str()`, hypotheses
`hc1`/`hc2`) different from the master's own form, fetching over both
sources yields exactly one realized copy of the entry — next to the
`is_template = -1` marker node. -/
theorem c3_multiple_dedup (fuel : Nat) (env : Env) (m e1 e2 : DefnData) (skip : Bool)
    (masterStr candStr : String)
    (hmult : m.multiple = some true) (hopt : m.optional ≠ some false)
    (hdis : m.is_disabled = false) (hmal : m.alias_ = none)
    (hmname : m.name ≠ "") (hdep : m.deprecated ≠ some true)
    (hne1 : e1 ≠ m) (hne2 : e2 ≠ m)
    (he1n : e1.name = m.name) (he2n : e2.name = m.name)
    (he1d : e1.is_disabled = false) (he2d : e2.is_disabled = false)
    (hns1 : ∀ w ∈ e1.words, wordHasNoSub w = true)
    (hns2 : ∀ w ∈ e2.words, wordHasNoSub w = true)
    (hm1 : extractFormatAsStr (fuel + 2) (.defn m) (.defn m) = .ok masterStr)
    (hc1 : extractFormatAsStr (fuel + 2) (.defn m)
      (.defn (m.customized_copy e1.words)) = .ok candStr)
    (hc2 : extractFormatAsStr (fuel + 2) (.defn m)
      (.defn (m.customized_copy e2.words)) = .ok candStr)
    (hdiff : candStr ≠ masterStr) :
    (scopeFetch (fuel + 3) env { name := "" } [.defn m] []
        [Src.real (.scope { name := "" } [.defn e1]) [],
         Src.real (.scope { name := "" } [.defn e2]) []] false skip).run [] =
      .ok (.scope (ScopeData.customized_copy { name := "" })
        [(Obj.defn m).setIsTemplate (-1), .defn (m.customized_copy e2.words)], []) := by
  have hcomb : combineSources "" skip
      [Src.real (.scope { name := "" } [.defn e1]) [],
       Src.real (.scope { name := "" } [.defn e2]) []] =
      .ok [Src.real (.defn e1) [⟨"", none, [.defn e1]⟩],
           Src.real (.defn e2) [⟨"", none, [.defn e2]⟩]] := rfl
  have hact := master_active_objects_single m hdis
  have halias : alias_path none m.name [⟨"", none, [Obj.defn m]⟩] = none := rfl
  have hL : ∀ c ∈ [Src.real (.defn e1) [⟨"", none, [.defn e1]⟩],
      Src.real (.defn e2) [⟨"", none, [.defn e2]⟩]],
      ∃ e' ctx, c = Src.real (.defn e') ctx := by
    intro c hc
    simp only [List.mem_cons, List.not_mem_nil, or_false] at hc
    rcases hc with rfl | rfl
    · exact ⟨e1, _, rfl⟩
    · exact ⟨e2, _, rfl⟩
  have hLm : ∀ c ∈ [Src.real (.defn m) [⟨"", none, [.defn m]⟩]],
      ∃ e' ctx, c = Src.real (.defn e') ctx := by
    intro c hc
    simp only [List.mem_singleton] at hc
    subst hc
    exact ⟨m, _, rfl⟩
  have hmatch : getWS (fuel + 2) (Src.wrapped (ScopeData.customized_copy { name := "" })
      [Src.real (.defn e1) [⟨"", none, [.defn e1]⟩],
       Src.real (.defn e2) [⟨"", none, [.defn e2]⟩]] []) m.name none =
      .ok [Src.real (.defn e1) [⟨"", none, [.defn e1]⟩],
           Src.real (.defn e2) [⟨"", none, [.defn e2]⟩]] := by
    have hstep : getWS (fuel + 2) (Src.wrapped (ScopeData.customized_copy { name := "" })
        [Src.real (.defn e1) [⟨"", none, [.defn e1]⟩],
         Src.real (.defn e2) [⟨"", none, [.defn e2]⟩]] []) m.name none =
        (if m.name = "" then .ok [Src.real (.defn e1) [⟨"", none, [.defn e1]⟩],
            Src.real (.defn e2) [⟨"", none, [.defn e2]⟩]]
         else getWSListWith (fun c => getWS (fuel + 1) c m.name none)
          ([Src.real (.defn e1) [⟨"", none, [.defn e1]⟩],
            Src.real (.defn e2) [⟨"", none, [.defn e2]⟩]].filter
              fun c => ¬ c.is_disabled)) := rfl
    rw [hstep, if_neg hmname, getWS_defn_children fuel m.name _ hL, List.filter_cons,
      if_pos (by simp [Src.is_disabled, Obj.is_disabled, Src.name, Obj.name, he1d, he1n]),
      List.filter_cons,
      if_pos (by simp [Src.is_disabled, Obj.is_disabled, Src.name, Obj.name, he2d, he2n])]
    rfl
  have hmm : getWS (fuel + 2) (Src.real (.scope { name := "" } [.defn m]) []) m.name none =
      .ok [Src.real (.defn m) [⟨"", none, [.defn m]⟩]] := by
    have hstep : getWS (fuel + 2) (Src.real (.scope { name := "" } [.defn m]) []) m.name none =
        (if m.name = "" then .ok [Src.real (.defn m) [⟨"", none, [.defn m]⟩]]
         else getWSListWith (fun c => getWS (fuel + 1) c m.name none)
          ([Src.real (.defn m) [⟨"", none, [.defn m]⟩]].filter fun c => ¬ c.is_disabled)) := rfl
    rw [hstep, if_neg hmname, getWS_defn_children fuel m.name _ hLm, List.filter_cons,
      if_pos (by simp [Src.is_disabled, Obj.is_disabled, Src.name, Obj.name, hdis])]
    rfl
  have hfa : ([Src.real (.defn e1) [⟨"", none, [.defn e1]⟩],
      Src.real (.defn e2) [⟨"", none, [.defn e2]⟩]].filter fun c => ¬ c.is_disabled) =
      [Src.real (.defn e1) [⟨"", none, [.defn e1]⟩],
       Src.real (.defn e2) [⟨"", none, [.defn e2]⟩]] := by
    rw [List.filter_cons, if_pos (by simp [Src.is_disabled, Obj.is_disabled, he1d]),
      List.filter_cons, if_pos (by simp [Src.is_disabled, Obj.is_disabled, he2d])]
    rfl
  have hfm : ([Src.real (.defn m) [⟨"", none, [.defn m]⟩]].filter
      fun c => ¬ c.is_disabled) = [Src.real (.defn m) [⟨"", none, [.defn m]⟩]] := by
    rw [List.filter_cons, if_pos (by simp [Src.is_disabled, Obj.is_disabled, hdis])]
    rfl
  have hres1 := resolve_variables_noSub (fuel + 1) env false e1 [⟨"", none, [.defn e1]⟩] hns1
  have hres2 := resolve_variables_noSub (fuel + 1) env false e2 [⟨"", none, [.defn e2]⟩] hns2
  have hw1 : (DefnData.customized_copy e1 e1.words).words = e1.words := rfl
  have hw2 : (DefnData.customized_copy e2 e2.words).words = e2.words := rfl
  have hbm : ((Obj.defn m : Obj) == Obj.defn m) = true := (Obj.beq_iff _ _).mpr rfl
  have hbf : (([(⟨"", none, [Obj.defn m]⟩ : Frame)] : List Frame) ==
      [⟨"", none, [Obj.defn m]⟩]) = true := by simp
  have hb1 : ((Obj.defn e1 : Obj) == Obj.defn m) = false := by
    rw [Bool.eq_false_iff]
    intro hx
    exact hne1 (Obj.defn.inj ((Obj.beq_iff _ _).mp hx))
  have hb2 : ((Obj.defn e2 : Obj) == Obj.defn m) = false := by
    rw [Bool.eq_false_iff]
    intro hx
    exact hne2 (Obj.defn.inj ((Obj.beq_iff _ _).mp hx))
  simp only [scopeFetch, fetchActivesLoopWith, fetchMultiLoopWith, fetchOneWith,
    fetchDefnSourcesLoop, defnFetch, fetch_value, isSameNode,
    hcomb, hact, halias, hmatch, hmm, hfa, hfm, hres1, hres2, hw1, hw2,
    hm1, hc1, hc2, hmult, hopt, hdep, hdiff, hmal, hbm, hbf, hb1, hb2,
    Obj.name, Obj.alias_, Obj.multiple, Obj.optional, Obj.deprecated,
    List.lookup, assocSetInt, List.set, List.length,
    StateT.run_bind, StateT.run_pure, run_liftE_ok, run_warn, exceptOkBind,
    beq_self_eq_true, Bool.and_self, Bool.false_and, Bool.true_and, Bool.and_false,
    Bool.and_true, ne_eq, not_false_eq_true, if_true, Bool.false_eq_true,
    not_true_eq_false, if_false, eq_self_iff_true, pure_bind,
    Option.map_some', Option.getD_some, reduceIte]
  rfl

def c3m : DefnData := { name := "q", words := [⟨"0", none⟩], multiple := some true }
def c3e : DefnData := { name := "q", words := [⟨"5", none⟩] }

/-- The C3 theorem at a concrete input: master `q=0` (multiple), two
sources each adding `q=5`; the result holds the `-1` template marker and a
single realized `q=5`. -/
theorem c3_multiple_dedup_witness :
    (scopeFetch 3 [] { name := "" } [.defn c3m] []
        [Src.real (.scope { name := "" } [.defn c3e]) [],
         Src.real (.scope { name := "" } [.defn c3e]) []] false false).run [] =
      .ok (.scope (ScopeData.customized_copy { name := "" })
        [(Obj.defn c3m).setIsTemplate (-1), .defn (c3m.customized_copy c3e.words)], []) :=
  c3_multiple_dedup 0 [] c3m c3e c3e false "q = \"0\"\n" "q = \"5\"\n"
    rfl (by decide) rfl rfl (by decide) (by decide) (by decide) (by decide)
    rfl rfl rfl rfl (by decide) (by decide) rfl rfl rfl (by decide)

/-- The word list survives the `strings_from_words`/`strings_as_words`
round trip up to word texts (quoting styles are re-assigned by `format`):
false exactly for the case-variant `None`/`Auto` placeholders. -/
def wordValuesRT (ws : List Word) : Bool :=
  match strings_as_words (strings_from_words ws) with
  | some ws2 => (ws2.map Word.value) == (ws.map Word.value)
  | none => false

/-- Pairwise distinct sibling names. -/
def distinctNames : List Obj → Bool
  | [] => true
  | o :: rest => (rest.all fun o2 => o2.name ≠ o.name) && distinctNames rest

mutual

/-- The tree class of the amended round-trip law: no disabled member, no
template member, pairwise distinct sibling names, word lists that survive
the string conversion, and no `multiple=True, optional=True` definition
holding the `None` placeholder (which `__phil_set__` drops). -/
def goodTree : Obj → Bool
  | .defn d =>
    !d.is_disabled && d.is_template == 0 && wordValuesRT d.words &&
      !(d.multiple == some true && d.optional == some true &&
        (strings_from_words d.words).isNone)
  | .scope s os =>
    !s.is_disabled && s.is_template == 0 && distinctNames os && goodTreeList os

def goodTreeList : List Obj → Bool
  | [] => true
  | o :: rest => goodTree o && goodTreeList rest

end

/-- The entry list produced by extracting a list of good children: one
entry per child, in order — a `scope_extract_list` holding the single
extracted value for a `multiple` child, a plain attribute otherwise. -/
def entriesMatch : List Obj → List PEntry → Prop
  | [], [] => True
  | o :: os, e :: es =>
    (∃ v, extract o = .ok v ∧
      e = (if o.multiple = some true then PEntry.mlist o.name o.optional [v]
           else PEntry.single o.name v)) ∧ entriesMatch os es
  | _, _ => False

/-- Setting a fresh attribute appends it. -/
theorem entriesSet_fresh : ∀ (acc : List PEntry) (n : String) (e : PEntry),
    entriesGet acc n = none → entriesSet acc n e = acc ++ [e]
  | [], _, _, _ => rfl
  | x :: rest, n, e, h => by
    unfold entriesGet at h
    rw [List.find?_cons] at h
    cases hx : decide (x.name = n) with
    | true =>
      rw [hx] at h
      simp at h
    | false =>
      rw [hx] at h
      have hne : ¬ x.name = n := of_decide_eq_false hx
      unfold entriesSet
      rw [if_neg hne, entriesSet_fresh rest n e h]
      rfl

/-- `normalizeList` distributes over append. -/
theorem normalizeList_append : ∀ (l1 l2 : List Obj),
    normalizeList (l1 ++ l2) = normalizeList l1 ++ normalizeList l2
  | [], _ => rfl
  | o :: rest, l2 => by
    simp only [List.cons_append, normalizeList, List.append_eq]
    rw [normalizeList_append rest l2]
    by_cases h : (o.is_template == 0) = true
    · rw [if_pos h, if_pos h]
      rfl
    · rw [if_neg h, if_neg h]

/-- A formatted node always carries `is_template = 0` (it is a
`customized_copy`). -/
theorem formatObj_is_template : ∀ (fuel : Nat) (o : Obj) (py : PyVal) (f : Obj),
    formatObj fuel o py = .ok f → f.is_template = 0
  | 0, _, _, _, h => by simp [formatObj] at h
  | fuel + 1, .defn d, py, f, h => by
    simp only [formatObj, formatDefn] at h
    cases hs : strings_as_words py with
    | none => rw [hs] at h; simp at h
    | some ws =>
      rw [hs] at h
      have h' : (Except.ok (Obj.defn (d.customized_copy ws)) : Except PhilError Obj) =
          .ok f := h
      simp only [Except.ok.injEq] at h'
      rw [← h']
      rfl
  | fuel + 1, .scope s os, py, f, h => by
    simp only [formatObj] at h
    cases ha : master_active_objects os with
    | error e =>
      rw [ha] at h
      exact absurd (show (Except.error e : Except PhilError Obj) = .ok f from h) (by simp)
    | ok actives =>
      rw [ha] at h
      simp only [exceptOkBind] at h
      cases hl : formatLoopWith (fun o v => formatObj fuel o v) py actives [] [] with
      | error e =>
        rw [hl] at h
        exact absurd (show (Except.error e : Except PhilError Obj) = .ok f from h) (by simp)
      | ok pr =>
        rw [hl] at h
        have h' : (Except.ok (Obj.scope s.customized_copy pr.2) : Except PhilError Obj) =
            .ok f := h
        simp only [Except.ok.injEq] at h'
        rw [← h']
        rfl

/-- Active-object iteration is the identity on a list of enabled children
with pairwise distinct names. -/
theorem master_active_objects_distinct :
    ∀ (os : List Obj) (seen : List (String × Option Bool)),
    (∀ o ∈ os, o.is_disabled = false) → distinctNames os = true →
    (∀ o ∈ os, seen.lookup o.name = none) →
    master_active_objects_loop os seen = .ok os
  | [], _, _, _, _ => rfl
  | o :: rest, seen, hdis, hdist, hseen => by
    unfold master_active_objects_loop
    rw [if_neg (by simp [hdis o (List.mem_cons_self o rest)])]
    rw [hseen o (List.mem_cons_self o rest)]
    simp only [distinctNames, Bool.and_eq_true, List.all_eq_true] at hdist
    rw [master_active_objects_distinct rest ((o.name, o.multiple) :: seen)
      (fun g hg => hdis g (List.mem_cons_of_mem o hg)) hdist.2 ?_]
    · rfl
    · intro g hg
      have hne : g.name ≠ o.name := by
        have := hdist.1 g hg
        simpa using this
      simp only [List.lookup_cons, show (g.name == o.name) = false from by simpa using hne]
      exact hseen g (List.mem_cons_of_mem o hg)

/-- A good node is enabled and untemplated. -/
theorem goodTree_flags (o : Obj) (h : goodTree o = true) :
    o.is_disabled = false ∧ o.is_template = 0 := by
  cases o with
  | defn d =>
    simp only [goodTree, Bool.and_eq_true, Bool.not_eq_true', beq_iff_eq] at h
    exact ⟨h.1.1.1, h.1.1.2⟩
  | scope s os =>
    simp only [goodTree, Bool.and_eq_true, Bool.not_eq_true', beq_iff_eq] at h
    exact ⟨h.1.1.1, h.1.1.2⟩

/-- A good `multiple` child never extracts to a value that `__phil_set__`
would drop (`None` under `optional=True`). -/
theorem goodTree_no_drop (o : Obj) (v : PyVal) (hg : goodTree o = true)
    (hm : o.multiple = some true) (hv : extract o = .ok v) :
    (v.isNone && decide (o.optional = some true)) = false := by
  cases o with
  | defn d =>
    have hveq : v = strings_from_words d.words := by
      have : (Except.ok (strings_from_words d.words) : Except PhilError PyVal) = .ok v := hv
      simp only [Except.ok.injEq] at this
      rw [this]
    subst hveq
    simp only [Obj.multiple] at hm
    simp only [goodTree, Bool.and_eq_true, Bool.not_eq_true'] at hg
    have hx := hg.2
    rw [hm] at hx
    simp only [beq_self_eq_true, Bool.true_and] at hx
    simp only [Obj.optional]
    rcases Bool.and_eq_false_iff.mp hx with h1 | h2
    · have hne : d.optional ≠ some true := by simpa using h1
      rw [decide_eq_false hne]
      simp
    · rw [h2]
      simp
  | scope s os =>
    simp only [extract] at hv
    cases he : extractLoop os [] with
    | error e =>
      rw [he] at hv
      exact absurd (show (Except.error e : Except PhilError PyVal) = .ok v from hv) (by simp)
    | ok es =>
      rw [he] at hv
      have : (Except.ok (PyVal.scopeE s.name es) : Except PhilError PyVal) = .ok v := hv
      simp only [Except.ok.injEq] at this
      rw [← this]
      simp [PyVal.isNone]

/-- `__phil_set__` of a fresh non-multiple attribute appends a plain
entry. -/
theorem philSet_fresh_single (acc : List PEntry) (n : String) (opt mult : Option Bool)
    (v : PyVal) (hfresh : entriesGet acc n = none)
    (hdot : strContainsChar n '.' = false) (hm : mult ≠ some true) :
    philSet acc n opt mult (.val v) = .ok (acc ++ [.single n v]) := by
  unfold philSet
  rw [hdot]
  rw [if_neg (by simp), if_pos hm, hfresh]
  cases v <;> (simp [entriesSet_fresh acc n _ hfresh]; rfl)

/-- `__phil_set__` of a fresh `multiple` attribute creates the singleton
`scope_extract_list` — unless the value is `None` under `optional=True`. -/
theorem philSet_fresh_multiple (acc : List PEntry) (n : String) (opt : Option Bool)
    (v : PyVal) (hfresh : entriesGet acc n = none)
    (hdot : strContainsChar n '.' = false)
    (hnd : (v.isNone && decide (opt = some true)) = false) :
    philSet acc n opt (some true) (.val v) = .ok (acc ++ [.mlist n opt [v]]) := by
  unfold philSet
  rw [hdot]
  rw [if_neg (by simp), if_neg (by simp), hfresh]
  simp only [hnd, Bool.false_eq_true, if_false]
  rw [entriesSet_fresh acc n _ hfresh]
  rfl

/-- Setting a fresh attribute keeps other fresh lookups fresh. -/
theorem entriesGet_append_singleton : ∀ (acc : List PEntry) (e : PEntry) (n : String),
    entriesGet acc n = none → e.name ≠ n → entriesGet (acc ++ [e]) n = none
  | [], e, n, _, hne => by
    simp only [List.nil_append, entriesGet, List.find?_cons, List.find?_nil]
    rw [show (decide (e.name = n)) = false from decide_eq_false hne]
  | x :: rest, e, n, h, hne => by
    unfold entriesGet at h ⊢
    rw [List.cons_append, List.find?_cons] at *
    cases hx : decide (x.name = n) with
    | true =>
      rw [hx] at h
      exact absurd (show some x = none from h) (by simp)
    | false =>
      rw [hx] at h
      exact entriesGet_append_singleton rest e n h hne

/-- The extraction loop on good children with distinct names appends one
matching entry per child. -/
theorem extractLoop_good : ∀ (os : List Obj) (acc entries : List PEntry),
    goodTreeList os = true → distinctNames os = true →
    (∀ o ∈ os, entriesGet acc o.name = none) →
    extractLoop os acc = .ok entries →
    ∃ newE, entries = acc ++ newE ∧ entriesMatch os newE
  | [], acc, entries, _, _, _, h => by
    have h' : (Except.ok acc : Except PhilError (List PEntry)) = .ok entries := h
    simp only [Except.ok.injEq] at h'
    exact ⟨[], by simp [← h'], trivial⟩
  | o :: rest, acc, entries, hg, hdist, hfresh, h => by
    simp only [goodTreeList, Bool.and_eq_true] at hg
    simp only [distinctNames, Bool.and_eq_true, List.all_eq_true] at hdist
    obtain ⟨hdis, ht⟩ := goodTree_flags o hg.1
    rw [extractLoop, ht, hdis] at h
    rw [if_neg (by simp)] at h
    rw [if_neg (by simp)] at h
    cases hv : extract o with
    | error e =>
      rw [hv] at h
      exact absurd (show (Except.error e : Except PhilError (List PEntry)) =
        .ok entries from h) (by simp)
    | ok v =>
      rw [hv] at h
      simp only [exceptOkBind, pure_bind] at h
      cases hdot : strContainsChar o.name '.' with
      | true =>
        unfold philSet at h
        rw [hdot] at h
        rw [if_pos rfl] at h
        exact absurd (show (Except.error PhilError.assertionFailure :
          Except PhilError (List PEntry)) = .ok entries from h) (by simp)
      | false =>
        have hofresh : ∀ (entry : PEntry), entry.name = o.name →
            ∀ o2 ∈ rest, entriesGet (acc ++ [entry]) o2.name = none := by
          intro entry hen o2 ho2
          apply entriesGet_append_singleton _ _ _ (hfresh o2 (List.mem_cons_of_mem o ho2))
          rw [hen]
          have := hdist.1 o2 ho2
          simp only [decide_eq_true_eq] at this
          exact fun hx => this hx.symm
        by_cases hm : o.multiple = some true
        · rw [hm] at h
          rw [philSet_fresh_multiple acc o.name o.optional v
            (hfresh o (List.mem_cons_self o rest)) hdot
            (goodTree_no_drop o v hg.1 hm hv)] at h
          simp only [exceptOkBind] at h
          obtain ⟨newE', he', hmatch'⟩ := extractLoop_good rest
            (acc ++ [.mlist o.name o.optional [v]]) entries hg.2 hdist.2
            (hofresh (.mlist o.name o.optional [v]) rfl) h
          refine ⟨.mlist o.name o.optional [v] :: newE', ?_, ?_⟩
          · rw [he']
            simp
          · exact ⟨⟨v, hv, by rw [if_pos hm]⟩, hmatch'⟩
        · rw [philSet_fresh_single acc o.name o.optional o.multiple v
            (hfresh o (List.mem_cons_self o rest)) hdot hm] at h
          simp only [exceptOkBind] at h
          obtain ⟨newE', he', hmatch'⟩ := extractLoop_good rest
            (acc ++ [.single o.name v]) entries hg.2 hdist.2
            (hofresh (.single o.name v) rfl) h
          refine ⟨.single o.name v :: newE', ?_, ?_⟩
          · rw [he']
            simp
          · exact ⟨⟨v, hv, by rw [if_neg hm]⟩, hmatch'⟩

/-- Each child's attribute lookup in the extracted entries finds its own
entry. -/
def lookupMatches (os : List Obj) (entriesAll : List PEntry) : Prop :=
  ∀ o ∈ os, ∃ v, extract o = .ok v ∧
    entriesGet entriesAll o.name =
      some (if o.multiple = some true then PEntry.mlist o.name o.optional [v]
            else PEntry.single o.name v)

/-- From the ordered entry list to per-name lookups (names distinct). -/
theorem entriesMatch_lookup : ∀ (os : List Obj) (es : List PEntry),
    entriesMatch os es → distinctNames os = true → lookupMatches os es
  | [], [], _, _ => by intro o ho; simp at ho
  | [], _ :: _, hm, _ => (hm : False).elim
  | _ :: _, [], hm, _ => (hm : False).elim
  | o :: os', e :: es', hm, hd => by
    obtain ⟨⟨v, hv, he⟩, hrest⟩ := hm
    simp only [distinctNames, Bool.and_eq_true, List.all_eq_true] at hd
    have hname : e.name = o.name := by
      rw [he]
      by_cases hmm : o.multiple = some true
      · rw [if_pos hmm]
        rfl
      · rw [if_neg hmm]
        rfl
    intro o2 ho2
    rcases List.mem_cons.mp ho2 with rfl | ho2'
    · refine ⟨v, hv, ?_⟩
      unfold entriesGet
      rw [List.find?_cons]
      rw [show decide (e.name = o2.name) = true from by simp [hname]]
      rw [he]
    · have hne : o2.name ≠ o.name := by
        have := hd.1 o2 ho2'
        simpa using this
      obtain ⟨v2, hv2, hg2⟩ := entriesMatch_lookup os' es' hrest hd.2 o2 ho2'
      refine ⟨v2, hv2, ?_⟩
      unfold entriesGet at hg2 ⊢
      rw [List.find?_cons]
      rw [show decide (e.name = o2.name) = false from by
        rw [hname]; exact decide_eq_false fun hx => hne hx.symm]
      exact hg2

/-- The format loop on good children replays exactly the original children
(up to normalization): one formatted copy per child, plus a dropped `-1`
template marker before each `multiple` scope copy. -/
theorem formatLoop_good (fuel : Nat) (nm : String) (entriesAll : List PEntry) :
    ∀ (os : List Obj) (done : List (String × Bool)) (acc : List Obj)
      (res : List (String × Bool) × List Obj),
    (∀ o ∈ os, ∀ py f, goodTree o = true → extract o = .ok py →
      formatObj fuel o py = .ok f → normalize f = normalize o) →
    goodTreeList os = true → distinctNames os = true →
    lookupMatches os entriesAll →
    (∀ o ∈ os, done.lookup o.name = none) →
    formatLoopWith (fun o v => formatObj fuel o v) (.scopeE nm entriesAll) os done acc =
      .ok res →
    ∃ newObjs, res.2 = acc ++ newObjs ∧ normalizeList newObjs = normalizeList os
  | [], done, acc, res, _, _, _, _, _, h => by
    have h' : (Except.ok (done, acc) :
        Except PhilError (List (String × Bool) × List Obj)) = .ok res := h
    simp only [Except.ok.injEq] at h'
    refine ⟨[], ?_, rfl⟩
    rw [← h']
    simp
  | o :: rest, done, acc, res, hIH, hg, hdist, hlook, hdone, h => by
    simp only [goodTreeList, Bool.and_eq_true] at hg
    simp only [distinctNames, Bool.and_eq_true, List.all_eq_true] at hdist
    obtain ⟨v, hv, hget⟩ := hlook o (List.mem_cons_self o rest)
    have hdoneo := hdone o (List.mem_cons_self o rest)
    have hoIH := hIH o (List.mem_cons_self o rest)
    have ht0 := (goodTree_flags o hg.1).2
    rw [formatLoopWith] at h
    rw [hdoneo] at h
    rw [if_neg (by simp)] at h
    have hrest : ∀ (done2 : List (String × Bool)) (acc2 : List Obj),
        (∀ o2 ∈ rest, done2.lookup o2.name = none) →
        formatLoopWith (fun o v => formatObj fuel o v) (.scopeE nm entriesAll)
          rest done2 acc2 = .ok res →
        ∃ newObjs, res.2 = acc2 ++ newObjs ∧ normalizeList newObjs = normalizeList rest :=
      fun done2 acc2 hd2 h2 => formatLoop_good fuel nm entriesAll rest done2 acc2 res
        (fun o2 ho2 => hIH o2 (List.mem_cons_of_mem o ho2)) hg.2 hdist.2
        (fun o2 ho2 => hlook o2 (List.mem_cons_of_mem o ho2)) hd2 h2
    have hdrest : ∀ o2 ∈ rest, done.lookup o2.name = none :=
      fun o2 ho2 => hdone o2 (List.mem_cons_of_mem o ho2)
    by_cases hm : o.multiple = some true
    · cases ho : o.is_scope with
      | false =>
        -- a multiple definition: no template marker is emitted
        simp only [hm, ho, hget, hdoneo, formatItemsWith, decide_eq_true hm,
          Bool.and_false, Bool.and_true, Bool.false_eq_true, if_false, if_true,
          ne_eq, eq_self_iff_true, not_true_eq_false, List.isEmpty_cons,
          exceptOkBind, pure_bind, reduceIte] at h
        cases hf : formatObj fuel o v with
        | error e =>
          rw [hf] at h
          exact absurd (show (Except.error e :
            Except PhilError (List (String × Bool) × List Obj)) = .ok res from h) (by simp)
        | ok fobj =>
          rw [hf] at h
          simp only [exceptOkBind, pure_bind] at h
          obtain ⟨newObjs', hres, hnorm⟩ := hrest done (acc ++ [fobj]) hdrest h
          refine ⟨fobj :: newObjs', by rw [hres]; simp, ?_⟩
          rw [normalizeList, normalizeList]
          rw [show (fobj.is_template == 0) = true from by
            simp [formatObj_is_template fuel o v fobj hf]]
          rw [show (o.is_template == 0) = true from by simp [ht0]]
          rw [hnorm, hoIH v fobj hg.1 hv hf]
      | true =>
        simp only [hm, ho, hget, hdoneo, formatItemsWith, assocSet, decide_eq_true hm,
          List.lookup_cons, beq_self_eq_true, Bool.and_false, Bool.and_true,
          Bool.false_eq_true, if_false, if_true, ne_eq, eq_self_iff_true,
          not_true_eq_false, List.isEmpty_cons, exceptOkBind, pure_bind, reduceIte] at h
        cases hf : formatObj fuel o v with
        | error e =>
          rw [hf] at h
          exact absurd (show (Except.error e :
            Except PhilError (List (String × Bool) × List Obj)) = .ok res from h) (by simp)
        | ok fobj =>
          rw [hf] at h
          simp only [exceptOkBind, pure_bind] at h
          simp only [show decide True = true from rfl, if_true, List.lookup_cons,
            beq_self_eq_true, eq_self_iff_true] at h
          have hd2 : ∀ o2 ∈ rest, List.lookup o2.name ((o.name, true) :: done) = none := by
            intro o2 ho2
            rw [List.lookup_cons]
            rw [show (o2.name == o.name) = false from by
              have := hdist.1 o2 ho2
              simp only [decide_eq_true_eq] at this
              exact beq_eq_false_iff_ne.mpr this]
            exact hdrest o2 ho2
          obtain ⟨newObjs', hres, hnorm⟩ := hrest ((o.name, true) :: done)
            (acc ++ [o.setIsTemplate (-1)] ++ [fobj]) hd2 h
          refine ⟨o.setIsTemplate (-1) :: fobj :: newObjs', by rw [hres]; simp, ?_⟩
          rw [normalizeList, normalizeList, normalizeList]
          rw [show ((o.setIsTemplate (-1)).is_template == 0) = false from by
            cases o <;> simp [Obj.setIsTemplate, Obj.is_template]]
          rw [show (fobj.is_template == 0) = true from by
            simp [formatObj_is_template fuel o v fobj hf]]
          rw [show (o.is_template == 0) = true from by simp [ht0]]
          rw [hnorm, hoIH v fobj hg.1 hv hf]
          simp
    · simp only [hm, hget, hdoneo, formatItemsWith, decide_eq_false hm,
        Bool.false_and, Bool.false_eq_true, if_false, ne_eq, not_false_eq_true,
        if_true, exceptOkBind, pure_bind, reduceIte] at h
      cases hf : formatObj fuel o v with
      | error e =>
        rw [hf] at h
        exact absurd (show (Except.error e :
          Except PhilError (List (String × Bool) × List Obj)) = .ok res from h) (by simp)
      | ok fobj =>
        rw [hf] at h
        simp only [exceptOkBind, pure_bind] at h
        obtain ⟨newObjs', hres, hnorm⟩ := hrest done (acc ++ [fobj]) hdrest h
        refine ⟨fobj :: newObjs', by rw [hres]; simp, ?_⟩
        rw [normalizeList, normalizeList]
        rw [show (fobj.is_template == 0) = true from by
          simp [formatObj_is_template fuel o v fobj hf]]
        rw [show (o.is_template == 0) = true from by simp [ht0]]
        rw [hnorm, hoIH v fobj hg.1 hv hf]

/-- Membership form of `goodTreeList`. -/
theorem goodTreeList_mem : ∀ (os : List Obj), goodTreeList os = true →
    ∀ o ∈ os, goodTree o = true
  | [], _, o, ho => by simp at ho
  | o1 :: rest, h, o, ho => by
    simp only [goodTreeList, Bool.and_eq_true] at h
    rcases List.mem_cons.mp ho with rfl | ho'
    · exact h.1
    · exact goodTreeList_mem rest h.2 o ho'

/-- **C6 (amended).** The `format (extract t)` round trip reproduces `t` up
to `normalize` — dropping template bookkeeping nodes and quoting styles —
for every good tree: no disabled or template members, pairwise distinct
sibling names, word lists that survive the string conversion, and no
`multiple=True, optional=True` definition holding the `None` placeholder
(the counterexample shows that last case breaks the claimed law). -/
theorem c6_roundtrip (t : Obj) : ∀ (py : PyVal) (f : Obj) (fuel : Nat),
    goodTree t = true → extract t = .ok py → formatObj fuel t py = .ok f →
    normalize f = normalize t := by
  induction t using Obj.inductionOn with
  | hd d =>
    intro py f fuel hg hex hf
    have hpy : py = strings_from_words d.words := by
      have h' : (Except.ok (strings_from_words d.words) : Except PhilError PyVal) =
          .ok py := hex
      simp only [Except.ok.injEq] at h'
      rw [h']
    subst hpy
    cases fuel with
    | zero => simp [formatObj] at hf
    | succ n =>
      simp only [formatObj, formatDefn] at hf
      have hrt : wordValuesRT d.words = true := by
        simp only [goodTree, Bool.and_eq_true] at hg
        exact hg.1.2
      unfold wordValuesRT at hrt
      cases hs : strings_as_words (strings_from_words d.words) with
      | none => rw [hs] at hrt; simp at hrt
      | some ws2 =>
        rw [hs] at hrt hf
        simp only [exceptOkBind, pure_bind] at hf
        have hf' : (Except.ok (Obj.defn (d.customized_copy ws2)) : Except PhilError Obj) =
            .ok f := hf
        simp only [Except.ok.injEq] at hf'
        rw [← hf']
        have hvals : ws2.map Word.value = d.words.map Word.value := by
          simpa using hrt
        have hmaps : ws2.map (fun w => ({ value := w.value, quoteToken := none } : Word)) =
            d.words.map (fun w => ({ value := w.value, quoteToken := none } : Word)) := by
          rw [show (fun w => ({ value := w.value, quoteToken := none } : Word)) =
              ((fun v => ({ value := v, quoteToken := none } : Word)) ∘ Word.value) from rfl]
          rw [← List.map_map, ← List.map_map, hvals]
        simp only [normalize, DefnData.customized_copy]
        rw [hmaps]
  | hs s os ih =>
    intro py f fuel hg hex hf
    simp only [goodTree, Bool.and_eq_true] at hg
    obtain ⟨⟨⟨hdis, ht⟩, hdist⟩, hgl⟩ := hg
    simp only [extract] at hex
    cases he : extractLoop os [] with
    | error e =>
      rw [he] at hex
      exact absurd (show (Except.error e : Except PhilError PyVal) = .ok py from hex)
        (by simp)
    | ok entries =>
      rw [he] at hex
      have hpy : py = .scopeE s.name entries := by
        have h' : (Except.ok (PyVal.scopeE s.name entries) : Except PhilError PyVal) =
            .ok py := hex
        simp only [Except.ok.injEq] at h'
        rw [h']
      subst hpy
      cases fuel with
      | zero => simp [formatObj] at hf
      | succ n =>
        simp only [formatObj] at hf
        have hdisAll : ∀ o ∈ os, o.is_disabled = false :=
          fun o ho => (goodTree_flags o (goodTreeList_mem os hgl o ho)).1
        have hma : master_active_objects os = .ok os :=
          master_active_objects_distinct os [] hdisAll hdist (by intro o ho; rfl)
        rw [hma] at hf
        simp only [exceptOkBind] at hf
        cases hl : formatLoopWith (fun o v => formatObj n o v)
            (.scopeE s.name entries) os [] [] with
        | error e =>
          rw [hl] at hf
          exact absurd (show (Except.error e : Except PhilError Obj) = .ok f from hf)
            (by simp)
        | ok pr =>
          rw [hl] at hf
          have hf' : (Except.ok (Obj.scope s.customized_copy pr.2) : Except PhilError Obj) =
              .ok f := hf
          simp only [Except.ok.injEq] at hf'
          obtain ⟨newE, hE, hmatch⟩ := extractLoop_good os [] entries hgl hdist
            (by intro o ho; rfl) he
          simp only [List.nil_append] at hE
          rw [← hE] at hmatch
          have hlook := entriesMatch_lookup os entries hmatch hdist
          obtain ⟨newObjs, hres2, hnorm⟩ := formatLoop_good n s.name entries os [] [] pr
            (fun o ho py2 f2 hg2 hex2 hf2 => ih o ho py2 f2 n hg2 hex2 hf2)
            hgl hdist hlook (by intro o ho; rfl) hl
          simp only [List.nil_append] at hres2
          rw [← hf']
          simp only [normalize, ScopeData.customized_copy, hres2, hnorm]

def c6g : Obj :=
  .scope { name := "" }
    [.defn { name := "x", words := [⟨"1", none⟩] },
     .scope { name := "sub", multiple := some true }
       [.defn { name := "y", words := [⟨"2", none⟩] }]]

def c6gpy : PyVal :=
  .scopeE ""
    [.single "x" (.strs ["1"]),
     .mlist "sub" none [.scopeE "sub" [.single "y" (.strs ["2"])]]]

def c6gf : Obj :=
  .scope (ScopeData.customized_copy { name := "" })
    [.defn (DefnData.customized_copy { name := "x", words := [⟨"1", none⟩] }
      [⟨"1", some '"'⟩]),
     (Obj.scope { name := "sub", multiple := some true }
       [.defn { name := "y", words := [⟨"2", none⟩] }]).setIsTemplate (-1),
     .scope (ScopeData.customized_copy { name := "sub", multiple := some true })
       [.defn (DefnData.customized_copy { name := "y", words := [⟨"2", none⟩] }
         [⟨"2", some '"'⟩])]]

/-- The amended C6 theorem at a concrete input: a root with a plain
definition and a `multiple` sub-scope round-trips through
`format (extract t)` up to normalization. -/
theorem c6_roundtrip_witness :
    goodTree c6g = true ∧ extract c6g = .ok c6gpy ∧ formatObj 3 c6g c6gpy = .ok c6gf ∧
    normalize c6gf = normalize c6g :=
  ⟨by decide, rfl, rfl, c6_roundtrip c6g c6gpy c6gf 3 (by decide) rfl rfl⟩

end Freephil
